import Mathlib

/-!
Shallow embedding of the ankiboard repository (an Anki statistics
exporter) and proofs about its documented behaviour.

Conventions used throughout:
* Calendar dates are modelled as integers counting days since the Unix
  epoch.  Python's `date.strftime('%Y-%m-%d')` is injective on dates, so
  a dict keyed by formatted date strings is modelled as an association
  list keyed by the day number.  `date.weekday()` (Monday = 0) equals
  `(day + 3) % 7` for day numbers counted from 1970-01-01 (a Thursday).
* Python dicts appear as association lists `List (Int × Nat)` (first
  binding wins on lookup; a real dict never holds a duplicate key).
* Python integers are `Int` or `Nat`; ratios computed with `/` on
  non-negative ints are modelled with `ℚ`.
-/

namespace Ankiboard

/-- `dict.get(key, 0)` on a daily-count mapping. -/
def lookupD (dr : List (Int × Nat)) (d : Int) : Nat :=
  match dr.lookup d with
  | some v => v
  | none => 0

/-- `key in dict` on a daily-count mapping. -/
def member (dr : List (Int × Nat)) (d : Int) : Bool :=
  (dr.lookup d).isSome

/-- Python `date.weekday()` (Monday = 0) for a day number counted from
the epoch; 1970-01-01 was a Thursday (`weekday 0 = 3`). -/
def weekday (d : Int) : Nat :=
  ((d + 3) % 7).toNat

/-!
## `stats_calculator.py`
-/

/-- The `while True` loop of `StatsCalculator._calculate_streak`
(`stats_calculator.py` lines 97-103): starting at day `d`, count
consecutive days present in `dr`, stopping at the first absent day.
`fuel` bounds the number of iterations; the caller passes enough fuel
that the loop always stops by itself (a run of present days can never
be longer than the number of keys of the mapping). -/
def countRun (dr : List (Int × Nat)) : Nat → Int → Nat
  | 0, _ => 0
  | fuel + 1, d => if member dr d then countRun dr fuel (d - 1) + 1 else 0

/-- `StatsCalculator._calculate_streak` (`stats_calculator.py` lines
79-105): anchor at today if present, else at yesterday if present,
else return 0; then count consecutive present days downward. -/
def calculate_streak (dr : List (Int × Nat)) (today : Int) : Nat :=
  if member dr today then countRun dr (dr.length + 1) today
  else if member dr (today - 1) then countRun dr (dr.length + 1) (today - 1)
  else 0

/-- `StatsCalculator._calculate_weekly_reviews` (`stats_calculator.py`
lines 107-116): `total = 0; for i in range(7): total +=
daily_reviews.get(today - i, 0)`. -/
def calculate_weekly_reviews (dr : List (Int × Nat)) (today : Int) : Nat :=
  (List.range 7).foldl (fun total i => total + lookupD dr (today - i)) 0

/-- One heatmap bucket (`stats_calculator.py` lines 130-135). -/
structure Bucket where
  date : Int
  count : Nat
  wday : Nat
  week : Nat
  deriving Repr, DecidableEq

/-- The `while current <= today` loop of
`StatsCalculator._prepare_heatmap_data` (`stats_calculator.py` lines
127-136), producing one bucket per day from `current` to `today`. -/
def heatmapLoop (dr : List (Int × Nat)) (start today current : Int) : List Bucket :=
  if current ≤ today then
    { date := current
      count := lookupD dr current
      wday := weekday current
      week := ((current - start) / 7).toNat } :: heatmapLoop dr start today (current + 1)
  else []
termination_by (today + 1 - current).toNat
decreasing_by omega

/-- Start day of the heatmap (`stats_calculator.py` line 122):
`today - timedelta(days=today.weekday() + 52 * 7)`. -/
def heatmapStart (today : Int) : Int :=
  today - (weekday today + 52 * 7)

/-- `StatsCalculator._prepare_heatmap_data` (`stats_calculator.py`
lines 118-138). -/
def prepare_heatmap_data (dr : List (Int × Nat)) (today : Int) : List Bucket :=
  heatmapLoop dr (heatmapStart today) today (heatmapStart today)

/-!
## `heatmap_generator.py`
-/

/-- `HeatmapGenerator.get_color_level` (`heatmap_generator.py` lines
45-60).  The Python `count / max_count` is float division of
non-negative ints; it is modelled with exact rational division, which
agrees with the source on every property stated below (float division
with a fixed positive divisor is monotone in the dividend and exact at
0). -/
def get_color_level (count max_count : Nat) : Nat :=
  if count = 0 then 0
  else if max_count = 0 then 1
  else if (count : ℚ) / (max_count : ℚ) < 1/4 then 1
  else if (count : ℚ) / (max_count : ℚ) < 1/2 then 2
  else if (count : ℚ) / (max_count : ℚ) < 3/4 then 3
  else 4

/-!
## `readme_generator.py`
-/

/-- Truncating division `int(x)` of a rational, as Python's `int()`
rounds toward zero. -/
def ratTrunc (q : ℚ) : Int :=
  if 0 ≤ q then ⌊q⌋ else ⌈q⌉

/-- The mastery computation in `ReadmeGenerator.generate_badges`
(`readme_generator.py` lines 51-52), with the division made explicit:
`divSome` is `none` exactly when the divisor is zero, so the outer
`Option` records whether a division by zero was ever attempted. -/
def divSome (a b : Int) : Option ℚ :=
  if b = 0 then none else some ((a : ℚ) / (b : ℚ))

/-- `total_active = cards['total'] - cards['suspended']; mastery_pct =
int(cards['mature'] / total_active * 100) if total_active > 0 else 0`
(`readme_generator.py` lines 51-52), returning `none` if the division
by zero branch were ever taken. -/
def mastery_pct (total suspended mature : Int) : Option Int :=
  if total - suspended > 0 then
    match divSome mature (total - suspended) with
    | some q => some (ratTrunc (q * 100))
    | none => none
  else some 0

/-!
## `anki_reader.py`
-/

/-- One row of the `cards` table: owning deck id `did`, state code
`ctype` (the column is called `type`: 0 = new, 1 = learning,
2 = review, 3 = relearning), queue code `queue` (< 0 means suspended
or buried). -/
structure Card where
  did : Int
  ctype : Int
  queue : Int
  deriving Repr, DecidableEq

/-- Result of `AnkiReader.get_card_counts` (`anki_reader.py` lines
120-143): one aggregate pass over the whole `cards` table. -/
structure CardCounts where
  total : Nat
  new : Nat
  learning : Nat
  mature : Nat
  suspended : Nat
  deriving Repr, DecidableEq

/-- `AnkiReader.get_card_counts` (`anki_reader.py` lines 120-143). -/
def get_card_counts (cards : List Card) : CardCounts :=
  { total := cards.length
    new := cards.countP (fun c => c.ctype == 0)
    learning := cards.countP (fun c => c.ctype == 1 || c.ctype == 3)
    mature := cards.countP (fun c => c.ctype == 2)
    suspended := cards.countP (fun c => decide (c.queue < 0)) }

/-- Per-deck counts attached by `AnkiReader.get_decks`
(`anki_reader.py` lines 172-188); a deck whose id never appears in the
`cards` table keeps no counts, which readers then take as 0, so the
three fields are 0 for such a deck. -/
structure DeckCounts where
  total : Nat
  new : Nat
  mature : Nat
  deriving Repr, DecidableEq

/-- The `GROUP BY did` aggregation of `AnkiReader.get_decks`
(`anki_reader.py` lines 173-181) restricted to one deck id. -/
def deck_card_counts (cards : List Card) (did : Int) : DeckCounts :=
  { total := cards.countP (fun c => c.did == did)
    new := cards.countP (fun c => c.did == did && c.ctype == 0)
    mature := cards.countP (fun c => c.did == did && c.ctype == 2) }

/-- `AnkiReader.get_decks` (`anki_reader.py` lines 145-190): one entry
per deck id of the `decks` table (dict keys, hence no duplicates),
carrying the per-deck card counts.  Cards whose `did` is not a known
deck id are dropped by the `if deck_id in decks` guard. -/
def get_decks (deckIds : List Int) (cards : List Card) : List (Int × DeckCounts) :=
  deckIds.map (fun d => (d, deck_card_counts cards d))

/-!
## Helper lemmas about integer intervals and the heatmap loop
-/

theorem Icc_int_eq_insert (a b : Int) (h : a ≤ b) :
    Finset.Icc a b = insert a (Finset.Icc (a + 1) b) := by
  ext x
  simp only [Finset.mem_Icc, Finset.mem_insert]
  omega

theorem heatmapLoop_sum (dr : List (Int × Nat)) (start today : Int) :
    ∀ (n : Nat) (current : Int), (today + 1 - current).toNat = n →
      ((heatmapLoop dr start today current).map Bucket.count).sum
        = ∑ d ∈ Finset.Icc current today, lookupD dr d := by
  intro n
  induction n with
  | zero =>
    intro current h
    have hgt : ¬ current ≤ today := by omega
    rw [heatmapLoop, if_neg hgt, Finset.Icc_eq_empty (by omega)]
    simp
  | succ n ih =>
    intro current h
    by_cases hle : current ≤ today
    · rw [heatmapLoop, if_pos hle, Icc_int_eq_insert current today hle,
        Finset.sum_insert (by simp only [Finset.mem_Icc]; omega)]
      simp only [List.map_cons, List.sum_cons]
      rw [ih (current + 1) (by omega)]
    · rw [heatmapLoop, if_neg hle, Finset.Icc_eq_empty (by omega)]
      simp

/-!
## `data_exporter.py`
-/

/-- One entry of `history.json`, the snapshot built by
`DataExporter.export_history` (`data_exporter.py` lines 39-47).  The
date string is modelled by the day number, as formatting a date is
injective. -/
structure HistoryEntry where
  date : Int
  total_cards : Nat
  mature_cards : Nat
  new_cards : Nat
  streak : Nat
  weekly_reviews : Nat
  weekly_time_minutes : Nat
  deriving Repr, DecidableEq

/-- Python's `l[-n:]`: the trailing `n` elements (the whole list when
it is shorter). -/
def lastN (n : Nat) (l : List α) : List α :=
  l.drop (l.length - n)

/-- `DataExporter.export_history` (`data_exporter.py` lines 49-56) on
the in-memory history list: replace the last entry on a same-day
rerun, append otherwise, then keep the last 365 entries. -/
def export_history (history : List HistoryEntry) (snapshot : HistoryEntry) :
    List HistoryEntry :=
  lastN 365
    (match history.getLast? with
     | some e =>
        if e.date == snapshot.date then history.dropLast ++ [snapshot]
        else history ++ [snapshot]
     | none => history ++ [snapshot])

/-!
## Bar-chart generators

The three `generate_svg` methods are embedded with their exact string
constants and branch structure.  Numeric interpolation: Python prints
ints and floats in decimal; here a rational is rendered by `numStr`
(`n` or `n/d`).  The exact digits never matter to the properties
proved about these functions (they depend only on which branch is
taken and on the placeholder string), and `numStr` is injective, so
no information is lost.
-/

/-- Decimal-free rendering of a rational interpolated into an SVG
string (see the section comment). -/
def numStr (q : ℚ) : String :=
  if q.den = 1 then toString q.num else toString q.num ++ "/" ++ toString q.den

/-- Python's `max()` over a list of ints: a `ValueError` on an empty
sequence, the maximum otherwise. -/
def pymax (l : List Nat) : Except String Nat :=
  match l with
  | [] => Except.error "max() arg is an empty sequence"
  | x :: xs => Except.ok (xs.foldl max x)

/-- A ranked-deck entry consumed by the bar-chart generators: the
dict with keys `name` and `reviews` built by
`_build_deck_reviews_ranking`. -/
structure RankEntry where
  name : String
  reviews : Nat
  deriving Repr, DecidableEq

/-- A deck entry consumed by `DeckSvgGenerator`: the dict with keys
`name`, `total`, `mature` built by `get_decks` (absent count keys read
as 0). -/
structure DeckInfo where
  name : String
  total : Nat
  mature : Nat
  deriving Repr, DecidableEq

/-- Shared font list used by the generators. -/
def fontList : String :=
  "-apple-system, BlinkMacSystemFont, Segoe UI, Helvetica, Arial, sans-serif"

namespace DeckCardsGenerator

/-- `DeckCardsGenerator._generate_empty_svg`
(`deck_cards_generator.py` lines 136-145). -/
def generate_empty_svg (dark_mode : Bool) : String :=
  let bg := if dark_mode then "#0d1117" else "#ffffff"
  let text := if dark_mode then "#8b949e" else "#656d76"
  "<svg xmlns=\"http://www.w3.org/2000/svg\" width=\"792\" height=\"40\">\n" ++
  "<rect width=\"792\" height=\"40\" fill=\"" ++ bg ++ "\"/>\n" ++
  "<text x=\"396\" y=\"24\" text-anchor=\"middle\" font-family=\"system-ui, -apple-system, sans-serif\"\n" ++
  "font-size=\"13\" fill=\"" ++ text ++ "\">No data</text>\n" ++
  "</svg>"

/-- One iteration of the bar loop of
`DeckCardsGenerator.generate_svg` (`deck_cards_generator.py` lines
70-129). -/
def barParts (bar_width bar_gap : ℚ) (max_count : Nat)
    (text_color label_color bar_color bar_empty_color : String)
    (i : Nat) (deck : RankEntry) : List String :=
  let x : ℚ := (i : ℚ) * (bar_width + bar_gap)
  let count := deck.reviews
  let bar_height : ℚ :=
    if count = 0 then 3
    else max 3 ((ratTrunc ((count : ℚ) / (max_count : ℚ) * 80)) : ℚ)
  let color := if count = 0 then bar_empty_color else bar_color
  let bar_y : ℚ := 80 - bar_height
  let label_y : ℚ := bar_y - 8
  let labelPart :=
    if count > 0 then
      "<text x=\"" ++ numStr (x + bar_width / 2) ++ "\" y=\"" ++ numStr label_y ++
      "\" fill=\"" ++ text_color ++ "\" font-size=\"10\" text-anchor=\"middle\" " ++
      "font-family=\"" ++ fontList ++ "\" font-weight=\"600\">" ++ toString count ++ "</text>"
    else
      "<text x=\"" ++ numStr (x + bar_width / 2) ++ "\" y=\"" ++ numStr (80 - 10) ++
      "\" fill=\"" ++ label_color ++ "\" font-size=\"10\" text-anchor=\"middle\" " ++
      "font-family=\"" ++ fontList ++ "\">0</text>"
  let rx : ℚ := if bar_height > 4 then 2 else 1
  let barPart :=
    "<rect x=\"" ++ numStr x ++ "\" y=\"" ++ numStr bar_y ++ "\" width=\"" ++
    numStr bar_width ++ "\" height=\"" ++ numStr bar_height ++ "\" fill=\"" ++ color ++
    "\" rx=\"" ++ numStr rx ++ "\" ry=\"" ++ numStr rx ++ "\"><title>" ++
    toString count ++ " reviews - " ++ deck.name ++ "</title></rect>"
  let name0 := deck.name
  let name1 :=
    if (name0.splitOn "::").length > 1 then ((name0.splitOn "::").getLast?).getD name0
    else name0
  let max_chars : Nat := (max 5 (ratTrunc (bar_width / 6))).toNat
  let name2 :=
    if name1.length > max_chars then name1.take (max_chars - 2) ++ ".." else name1
  let label_x : ℚ := x + bar_width / 2
  let label_y2 : ℚ := 80 + 12
  let namePart :=
    "<text x=\"" ++ numStr label_x ++ "\" y=\"" ++ numStr label_y2 ++ "\" fill=\"" ++
    label_color ++ "\" font-size=\"10\" font-family=\"" ++ fontList ++
    "\" transform=\"rotate(45, " ++ numStr label_x ++ ", " ++ numStr label_y2 ++ ")\">" ++
    name2 ++ "</text>"
  [labelPart, barPart, namePart]

/-- `DeckCardsGenerator.generate_svg` (`deck_cards_generator.py`
lines 21-134).  The un-guarded `max()` over the deck list is the one
possible runtime error, surfaced through `Except`. -/
def generate_svg (monthly_reviews : List RankEntry) (dark_mode : Bool) :
    Except String String :=
  let sorted_decks := monthly_reviews
  if sorted_decks.isEmpty then Except.ok (generate_empty_svg dark_mode)
  else
    let bg_color := if dark_mode then "#0d1117" else "#ffffff"
    let bar_color := if dark_mode then "#f78166" else "#fb8f44"
    let bar_empty_color := if dark_mode then "#21262d" else "#ebedf0"
    let text_color := if dark_mode then "#e6edf3" else "#1f2328"
    let label_color := if dark_mode then "#8b949e" else "#656d76"
    let num_bars := sorted_decks.length
    let left_margin : ℚ := 40
    let top_margin : ℚ := 20
    let bottom_margin : ℚ := 60
    let width : ℚ := 792
    let height : ℚ := top_margin + 80 + bottom_margin
    let available_width : ℚ := width - left_margin - 20
    let bar_width : ℚ := available_width / ((num_bars : ℚ) * (1 + 1/5))
    let bar_width : ℚ := max 20 bar_width
    let bar_gap : ℚ := bar_width * (1/5)
    match pymax (sorted_decks.map (fun d => d.reviews)) with
    | Except.error e => Except.error e
    | Except.ok m =>
      let max_count := if m = 0 then 1 else m
      let headerParts :=
        ["<svg width=\"" ++ numStr width ++ "\" height=\"" ++ numStr height ++
           "\" viewBox=\"0 0 " ++ numStr width ++ " " ++ numStr height ++
           "\" xmlns=\"http://www.w3.org/2000/svg\">",
         "<rect width=\"" ++ numStr width ++ "\" height=\"" ++ numStr height ++
           "\" fill=\"" ++ bg_color ++ "\"/>",
         "<g transform=\"translate(" ++ numStr left_margin ++ ", " ++
           numStr top_margin ++ ")\">"]
      let bodyParts :=
        (sorted_decks.enum.map (fun p =>
          barParts bar_width bar_gap max_count
            text_color label_color bar_color bar_empty_color p.1 p.2)).flatten
      Except.ok (String.intercalate "\n" (headerParts ++ bodyParts ++ ["</g>", "</svg>"]))

end DeckCardsGenerator

namespace DeckReviewsGenerator

/-- `DeckReviewsGenerator._generate_empty_svg`
(`deck_reviews_generator.py` lines 125-134). -/
def generate_empty_svg (dark_mode : Bool) : String :=
  let bg := if dark_mode then "#0d1117" else "#ffffff"
  let text := if dark_mode then "#8b949e" else "#656d76"
  "<svg xmlns=\"http://www.w3.org/2000/svg\" width=\"300\" height=\"40\">\n" ++
  "<rect width=\"300\" height=\"40\" fill=\"" ++ bg ++ "\"/>\n" ++
  "<text x=\"150\" y=\"24\" text-anchor=\"middle\" font-family=\"system-ui, -apple-system, sans-serif\"\n" ++
  "font-size=\"13\" fill=\"" ++ text ++ "\">No data</text>\n" ++
  "</svg>"

/-- One iteration of the bar loop of
`DeckReviewsGenerator.generate_svg` (`deck_reviews_generator.py`
lines 61-118). -/
def barParts (max_count : Nat)
    (text_color label_color bar_color bar_empty_color : String)
    (i : Nat) (deck : RankEntry) : List String :=
  let x : ℚ := (i : ℚ) * (36 + 8)
  let count := deck.reviews
  let bar_height : ℚ :=
    if count = 0 then 3
    else max 3 ((ratTrunc ((count : ℚ) / (max_count : ℚ) * 80)) : ℚ)
  let color := if count = 0 then bar_empty_color else bar_color
  let bar_y : ℚ := 80 - bar_height
  let label_y : ℚ := bar_y - 8
  let labelPart :=
    if count > 0 then
      "<text x=\"" ++ numStr (x + 36 / 2) ++ "\" y=\"" ++ numStr label_y ++
      "\" fill=\"" ++ text_color ++ "\" font-size=\"10\" text-anchor=\"middle\" " ++
      "font-family=\"" ++ fontList ++ "\" font-weight=\"600\">" ++ toString count ++ "</text>"
    else
      "<text x=\"" ++ numStr (x + 36 / 2) ++ "\" y=\"" ++ numStr (80 - 10) ++
      "\" fill=\"" ++ label_color ++ "\" font-size=\"10\" text-anchor=\"middle\" " ++
      "font-family=\"" ++ fontList ++ "\">0</text>"
  let rx : ℚ := if bar_height > 4 then 2 else 1
  let barPart :=
    "<rect x=\"" ++ numStr x ++ "\" y=\"" ++ numStr bar_y ++ "\" width=\"" ++
    numStr (36 : ℚ) ++ "\" height=\"" ++ numStr bar_height ++ "\" fill=\"" ++ color ++
    "\" rx=\"" ++ numStr rx ++ "\" ry=\"" ++ numStr rx ++ "\"><title>" ++
    toString count ++ " reviews - " ++ deck.name ++ "</title></rect>"
  let name0 := deck.name
  let name1 :=
    if (name0.splitOn "::").length > 1 then ((name0.splitOn "::").getLast?).getD name0
    else name0
  let name2 := if name1.length > 10 then name1.take 9 ++ ".." else name1
  let label_x : ℚ := x + 36 / 2
  let label_y2 : ℚ := 80 + 12
  let namePart :=
    "<text x=\"" ++ numStr label_x ++ "\" y=\"" ++ numStr label_y2 ++ "\" fill=\"" ++
    label_color ++ "\" font-size=\"10\" font-family=\"" ++ fontList ++
    "\" transform=\"rotate(45, " ++ numStr label_x ++ ", " ++ numStr label_y2 ++ ")\">" ++
    name2 ++ "</text>"
  [labelPart, barPart, namePart]

/-- `DeckReviewsGenerator.generate_svg` (`deck_reviews_generator.py`
lines 19-123); `max_decks` defaults to 7 at every call site. -/
def generate_svg (deck_reviews : List RankEntry) (dark_mode : Bool)
    (max_decks : Nat) : String :=
  let sorted_decks := deck_reviews.take max_decks
  if sorted_decks.isEmpty then generate_empty_svg dark_mode
  else
    let bg_color := if dark_mode then "#0d1117" else "#ffffff"
    let bar_color := if dark_mode then "#26a641" else "#40c463"
    let bar_empty_color := if dark_mode then "#161b22" else "#ebedf0"
    let text_color := if dark_mode then "#e6edf3" else "#1f2328"
    let label_color := if dark_mode then "#8b949e" else "#656d76"
    let num_bars := sorted_decks.length
    let left_margin : ℚ := 25
    let top_margin : ℚ := 20
    let chart_width : ℚ := (num_bars : ℚ) * (36 + 8) - 8
    let width : ℚ := left_margin + chart_width + 50
    let height : ℚ := top_margin + 80 + 60
    let m :=
      match sorted_decks.map (fun d => d.reviews) with
      | [] => 1
      | x :: xs => xs.foldl max x
    let max_count := if m = 0 then 1 else m
    let headerParts :=
      ["<svg width=\"" ++ numStr width ++ "\" height=\"" ++ numStr height ++
         "\" viewBox=\"0 0 " ++ numStr width ++ " " ++ numStr height ++
         "\" xmlns=\"http://www.w3.org/2000/svg\">",
       "<rect width=\"" ++ numStr width ++ "\" height=\"" ++ numStr height ++
         "\" fill=\"" ++ bg_color ++ "\"/>",
       "<g transform=\"translate(" ++ numStr left_margin ++ ", " ++
         numStr top_margin ++ ")\">"]
    let bodyParts :=
      (sorted_decks.enum.map (fun p =>
        barParts max_count text_color label_color bar_color bar_empty_color p.1 p.2)).flatten
    String.intercalate "\n" (headerParts ++ bodyParts ++ ["</g>", "</svg>"])

end DeckReviewsGenerator

namespace DeckSvgGenerator

/-- One row of `DeckSvgGenerator.generate_svg`
(`archive/svg/src/deck_svg_generator.py` lines 71-108). -/
def rowParts (text subtext bar_bg : String)
    (i : Nat) (deck : DeckInfo) : List String :=
  let y : ℚ := (i : ℚ) * 38 + 14
  let name0 := deck.name
  let name := if name0.length > 36 then name0.take 33 ++ "..." else name0
  let total := deck.total
  let mature := deck.mature
  let pct : Int :=
    if total > 0 then ratTrunc ((mature : ℚ) / (total : ℚ) * 100) else 0
  let _ := pct
  let namePart :=
    "<text x=\"0\" y=\"" ++ numStr y ++
    "\" font-family=\"system-ui, -apple-system, sans-serif\" " ++
    "font-size=\"13\" fill=\"" ++ text ++ "\">" ++ name ++ "</text>"
  let countPart :=
    "<text x=\"" ++ numStr 792 ++ "\" y=\"" ++ numStr y ++ "\" text-anchor=\"end\" " ++
    "font-family=\"system-ui, -apple-system, sans-serif\" font-size=\"12\" fill=\"" ++
    subtext ++ "\">" ++ toString mature ++ "/" ++ toString total ++ "</text>"
  let bar_y : ℚ := y + 10
  let bgPart :=
    "<rect x=\"0\" y=\"" ++ numStr bar_y ++ "\" width=\"" ++ numStr 792 ++
    "\" height=\"" ++ numStr 6 ++ "\" fill=\"" ++ bar_bg ++ "\" rx=\"3\"/>"
  let progressParts :=
    if total > 0 then
      let bar_w : ℚ := ((mature : ℚ) / (total : ℚ)) * 792
      if bar_w > 0 then
        ["<rect x=\"0\" y=\"" ++ numStr bar_y ++ "\" width=\"" ++ numStr bar_w ++
         "\" height=\"" ++ numStr 6 ++ "\" fill=\"url(#barGrad)\" rx=\"3\"/>"]
      else []
    else []
  [namePart, countPart, bgPart] ++ progressParts

/-- `DeckSvgGenerator.generate_svg`
(`archive/svg/src/deck_svg_generator.py` lines 14-111).  Decks are
filtered to those with cards, sorted descending by total (stably,
like Python's `sorted`), optionally truncated (a `max_decks` of
`None` or `0` is falsy and leaves the list whole); an empty result
returns the empty string. -/
def generate_svg (decks_data : List DeckInfo) (dark_mode : Bool)
    (max_decks : Option Nat) : String :=
  let decks_with_cards := decks_data.filter (fun d => d.total > 0)
  let sorted_decks :=
    List.mergeSort decks_with_cards (fun a b => decide (b.total ≤ a.total))
  let sorted_decks :=
    match max_decks with
    | some m => if m = 0 then sorted_decks else sorted_decks.take m
    | none => sorted_decks
  if sorted_decks.isEmpty then ""
  else
    let max_total := match sorted_decks.head? with
      | some d => d.total
      | none => 1
    let _ := max_total
    let bg := if dark_mode then "#0d1117" else "#ffffff"
    let text := if dark_mode then "#e6edf3" else "#24292f"
    let subtext := if dark_mode then "#8b949e" else "#656d76"
    let bar_bg := if dark_mode then "#21262d" else "#eaeef2"
    let grad_start := if dark_mode then "#238636" else "#2da44e"
    let grad_end := if dark_mode then "#2ea043" else "#3fb950"
    let height : ℚ := (sorted_decks.length : ℚ) * 38
    let headerParts :=
      ["<svg xmlns=\"http://www.w3.org/2000/svg\" width=\"" ++ numStr 792 ++
         "\" height=\"" ++ numStr height ++ "\">",
       "<defs>",
       "  <linearGradient id=\"barGrad\" x1=\"0%\" y1=\"0%\" x2=\"100%\" y2=\"0%\">",
       "    <stop offset=\"0%\" style=\"stop-color:" ++ grad_start ++ "\"/>",
       "    <stop offset=\"100%\" style=\"stop-color:" ++ grad_end ++ "\"/>",
       "  </linearGradient>",
       "</defs>",
       "<rect width=\"" ++ numStr 792 ++ "\" height=\"" ++ numStr height ++
         "\" fill=\"" ++ bg ++ "\"/>"]
    let bodyParts :=
      (sorted_decks.enum.map (fun p => rowParts text subtext bar_bg p.1 p.2)).flatten
    String.intercalate "\n" (headerParts ++ bodyParts ++ ["</svg>"])

end DeckSvgGenerator

/-!
## `sync.py`
-/

/-- The payload of one entry of the statistics dict. -/
inductive StatsVal where
  | cardsVal (c : CardCounts)
  | decksVal (d : List (Int × DeckCounts))
  | dailyReviewsVal (dr : List (Int × Nat))
  | deckReviewsVal (r : List RankEntry)
  | natVal (n : Nat)
  | heatmapVal (h : List Bucket)
  | strVal (s : String)
  deriving Repr

/-- The dict returned by `StatsCalculator.get_all_stats`
(`stats_calculator.py` lines 26-36), with the raw reader results and
the clock passed in as parameters. -/
def get_all_stats (card_counts : CardCounts) (decks : List (Int × DeckCounts))
    (daily_reviews : List (Int × Nat)) (deck_reviews_ranked : List RankEntry)
    (weekly_time : Nat) (today : Int) (generated_at : String) :
    List (String × StatsVal) :=
  [("cards", StatsVal.cardsVal card_counts),
   ("decks", StatsVal.decksVal decks),
   ("daily_reviews", StatsVal.dailyReviewsVal daily_reviews),
   ("deck_reviews", StatsVal.deckReviewsVal deck_reviews_ranked),
   ("streak", StatsVal.natVal (calculate_streak daily_reviews today)),
   ("weekly_reviews", StatsVal.natVal (calculate_weekly_reviews daily_reviews today)),
   ("weekly_time_minutes", StatsVal.natVal (weekly_time / 60000)),
   ("heatmap_data", StatsVal.heatmapVal (prepare_heatmap_data daily_reviews today)),
   ("generated_at", StatsVal.strVal generated_at)]

/-- An observable action of one `sync_stats` run. -/
inductive Event where
  | fileWritten (name : String)
  | gitRun (args : List String)
  deriving Repr, DecidableEq

/-- Outcomes of the git subprocesses a run may invoke
(`run_git_command`, `sync.py` lines 29-40, returns a success flag;
`diffQuietClean = true` models `git diff --cached --quiet` exiting 0,
i.e. nothing staged). -/
structure GitEnv where
  statusOk : Bool
  diffQuietClean : Bool
  commitOk : Bool
  pushOk : Bool

/-- `stats[key]`: a `KeyError` when the key is absent. -/
def pyGetItem (stats : List (String × StatsVal)) (k : String) :
    Except String StatsVal :=
  match stats.lookup k with
  | some v => Except.ok v
  | none => Except.error ("KeyError: " ++ k)

/-- The files staged by step 8 (`sync.py` lines 126-141). -/
def files_to_stage : List String :=
  ["data/stats.json", "data/history.json", "data/heatmap.json",
   "output/heatmap.svg", "output/heatmap-dark.svg",
   "output/decks.svg", "output/decks-dark.svg",
   "output/weekly.svg", "output/weekly-dark.svg",
   "output/time.svg", "output/time-dark.svg",
   "output/cards.svg", "output/cards-dark.svg",
   "README.md"]

/-- The git commands run by step 8 of `sync_stats` (`sync.py` lines
113-176), given the subprocess outcomes. -/
def gitStep (git : GitEnv) (commit push : Bool) : List Event :=
  if commit then
    Event.gitRun ["status"] ::
      (if git.statusOk then
        (files_to_stage.map (fun f => Event.gitRun ["add", f])) ++
        [Event.gitRun ["diff", "--cached", "--quiet"]] ++
        (if git.diffQuietClean then [] else [Event.gitRun ["commit"]]) ++
        (if push then [Event.gitRun ["push"]] else [])
      else [])
  else []

/-- `sync_stats` (`sync.py` lines 43-195) after a successful export
step, as a trace of observable actions plus the returned value; an
uncaught exception appears as `Except.error`.  Step 1
(`DataExporter.export_all`) wrote the three data files; steps 2-7
each read one key of the stats dict (an absent key raises `KeyError`)
and write their output files; step 8 runs the git commands, whose
failures only influence the log. -/
def sync_stats (stats : List (String × StatsVal)) (git : GitEnv)
    (commit push : Bool) : List Event × Except String Bool :=
  let ev1 := [Event.fileWritten "data/stats.json",
              Event.fileWritten "data/history.json",
              Event.fileWritten "data/heatmap.json"]
  match pyGetItem stats "heatmap_data" with
  | Except.error e => (ev1, Except.error e)
  | Except.ok _ =>
    let ev2 := ev1 ++ [Event.fileWritten "output/heatmap.svg",
                       Event.fileWritten "output/heatmap-dark.svg"]
    match pyGetItem stats "decks" with
    | Except.error e => (ev2, Except.error e)
    | Except.ok _ =>
      let ev3 := ev2 ++ [Event.fileWritten "output/decks.svg",
                         Event.fileWritten "output/decks-dark.svg"]
      match pyGetItem stats "daily_reviews" with
      | Except.error e => (ev3, Except.error e)
      | Except.ok _ =>
        let ev4 := ev3 ++ [Event.fileWritten "output/weekly.svg",
                           Event.fileWritten "output/weekly-dark.svg"]
        match pyGetItem stats "daily_time" with
        | Except.error e => (ev4, Except.error e)
        | Except.ok _ =>
          let ev5 := ev4 ++ [Event.fileWritten "output/time.svg",
                             Event.fileWritten "output/time-dark.svg"]
          match pyGetItem stats "monthly_deck_reviews" with
          | Except.error e => (ev5, Except.error e)
          | Except.ok _ =>
            let ev6 := ev5 ++ [Event.fileWritten "output/cards.svg",
                               Event.fileWritten "output/cards-dark.svg"]
            let ev7 := ev6 ++ [Event.fileWritten "README.md"]
            (ev7 ++ gitStep git commit push, Except.ok true)

/-!
## JSON text serialization

`DataExporter.export_stats` (`data_exporter.py` lines 18-25) writes
the statistics dict with `json.dump(stats, f, indent=2,
ensure_ascii=False)` and readers re-load the file with `json.load`.
Both are modelled here over the value domain the program actually
writes (ints, strings, lists, string-keyed dicts — no floats or
bools): `renderChars` reproduces `json.dump` with `indent=2`
(including its string-escaping rules), and `parseValue` models
`json.load` on such documents (whitespace-tolerant, escape-aware).
-/

inductive Json where
  | jint (n : Int)
  | jstr (s : String)
  | jarr (xs : List Json)
  | jobj (fields : List (String × Json))
  deriving Repr

/-- Decimal digit test. -/
def isDigitChar (c : Char) : Bool :=
  48 ≤ c.toNat && c.toNat ≤ 57

/-- Decimal digits of a natural number, most significant first. -/
def natDigits (n : Nat) : List Char :=
  if n < 10 then [Nat.digitChar n]
  else natDigits (n / 10) ++ [Nat.digitChar (n % 10)]
termination_by n
decreasing_by exact Nat.div_lt_self (by omega) (by omega)

/-- Decimal rendering of an int, `-` sign first. -/
def intChars (n : Int) : List Char :=
  if n < 0 then '-' :: natDigits n.natAbs else natDigits n.natAbs

/-- `json.dump`'s escaping of one character with `ensure_ascii=False`:
backslash, double quote and the five short control escapes get
two-character escapes, the remaining control characters become
`\u00xx`, everything else passes through. -/
def escapeChar (c : Char) : List Char :=
  if c = '"' then ['\\', '"']
  else if c = '\\' then ['\\', '\\']
  else if c = '\n' then ['\\', 'n']
  else if c = '\t' then ['\\', 't']
  else if c = '\r' then ['\\', 'r']
  else if c.toNat = 8 then ['\\', 'b']
  else if c.toNat = 12 then ['\\', 'f']
  else if c.toNat < 32 then
    ['\\', 'u', '0', '0', Nat.digitChar (c.toNat / 16), Nat.digitChar (c.toNat % 16)]
  else [c]

/-- A JSON string literal: quote, escaped characters, quote. -/
def strChars (s : String) : List Char :=
  '"' :: (s.data.map escapeChar).flatten ++ ['"']

/-- `indent=2`: two spaces per nesting level. -/
def indentChars (lvl : Nat) : List Char :=
  List.replicate (2 * lvl) ' '

mutual

/-- `json.dump(..., indent=2)` as a character list; `lvl` is the
current nesting level. -/
def renderChars : Nat → Json → List Char
  | _, Json.jint n => intChars n
  | _, Json.jstr s => strChars s
  | _, Json.jarr [] => ['[', ']']
  | lvl, Json.jarr (x :: xs) =>
      '[' :: '\n' :: (indentChars (lvl + 1) ++ renderChars (lvl + 1) x ++
        itemsTail (lvl + 1) xs ++ '\n' :: (indentChars lvl ++ [']']))
  | _, Json.jobj [] => ['\x7b', '\x7d']
  | lvl, Json.jobj (f :: fs) =>
      '\x7b' :: '\n' :: (indentChars (lvl + 1) ++ strChars f.1 ++ ':' :: ' ' ::
        (renderChars (lvl + 1) f.2 ++ fieldsTail (lvl + 1) fs ++
          '\n' :: (indentChars lvl ++ ['\x7d'])))

/-- The remaining array elements, each preceded by `,\n` and the
indentation. -/
def itemsTail : Nat → List Json → List Char
  | _, [] => []
  | lvl, y :: ys =>
      ',' :: '\n' :: (indentChars lvl ++ renderChars lvl y ++ itemsTail lvl ys)

/-- The remaining object fields, each preceded by `,\n` and the
indentation. -/
def fieldsTail : Nat → List (String × Json) → List Char
  | _, [] => []
  | lvl, g :: gs =>
      ',' :: '\n' :: (indentChars lvl ++ strChars g.1 ++ ':' :: ' ' ::
        (renderChars lvl g.2 ++ fieldsTail lvl gs))

end

/-- The file text written by `export_stats` for a JSON value. -/
def render (j : Json) : String :=
  String.mk (renderChars 0 j)

mutual

/-- Recursion depth needed to parse a value. -/
def jsonDepth : Json → Nat
  | Json.jint _ => 1
  | Json.jstr _ => 1
  | Json.jarr [] => 1
  | Json.jarr (x :: xs) => itemsDepth x xs + 1
  | Json.jobj [] => 1
  | Json.jobj (f :: fs) => fieldsDepth f fs + 1
termination_by j => sizeOf j
decreasing_by all_goals (simp_wf; try omega)

/-- Recursion depth needed to parse a non-empty item list. -/
def itemsDepth : Json → List Json → Nat
  | x, [] => jsonDepth x + 1
  | x, y :: ys => max (jsonDepth x) (itemsDepth y ys) + 1
termination_by x xs => sizeOf x + sizeOf xs
decreasing_by all_goals (simp_wf; try omega)

/-- Recursion depth needed to parse a non-empty field list. -/
def fieldsDepth : (String × Json) → List (String × Json) → Nat
  | ⟨_, v⟩, [] => jsonDepth v + 1
  | ⟨_, v⟩, g :: gs => max (jsonDepth v) (fieldsDepth g gs) + 1
termination_by f fs => sizeOf f + sizeOf fs
decreasing_by all_goals (simp_wf; try omega)

end

/-- Whitespace characters skipped by `json.load`. -/
def isWsChar (c : Char) : Bool :=
  c = ' ' || c = '\n' || c = '\t' || c = '\r'

/-- Skip leading whitespace. -/
def skipWs (l : List Char) : List Char :=
  l.dropWhile isWsChar

/-- Value of one hex digit. -/
def hexVal (c : Char) : Option Nat :=
  if 48 ≤ c.toNat && c.toNat ≤ 57 then some (c.toNat - 48)
  else if 97 ≤ c.toNat && c.toNat ≤ 102 then some (c.toNat - 87)
  else if 65 ≤ c.toNat && c.toNat ≤ 70 then some (c.toNat - 55)
  else none

/-- Resolution of a two-character escape. -/
def unescapeChar (e : Char) : Option Char :=
  if e = '"' then some '"'
  else if e = '\\' then some '\\'
  else if e = '/' then some '/'
  else if e = 'n' then some '\n'
  else if e = 't' then some '\t'
  else if e = 'r' then some '\r'
  else if e = 'b' then some (Char.ofNat 8)
  else if e = 'f' then some (Char.ofNat 12)
  else none

/-- Parse the body of a string literal after the opening quote,
returning the decoded characters and the input after the closing
quote. -/
def parseStringBody : List Char → Option (List Char × List Char)
  | [] => none
  | c :: rest =>
    if c = '"' then some ([], rest)
    else if c = '\\' then
      match rest with
      | 'u' :: h1 :: h2 :: h3 :: h4 :: rest3 =>
        match hexVal h1, hexVal h2, hexVal h3, hexVal h4 with
        | some a, some b, some c2, some d =>
          (parseStringBody rest3).map
            (fun p => (Char.ofNat (((a * 16 + b) * 16 + c2) * 16 + d) :: p.1, p.2))
        | _, _, _, _ => none
      | e :: rest2 =>
        match unescapeChar e with
        | some u => (parseStringBody rest2).map (fun p => (u :: p.1, p.2))
        | none => none
      | [] => none
    else (parseStringBody rest).map (fun p => (c :: p.1, p.2))

/-- Numeric value of a digit list, most significant first. -/
def digitsVal (ds : List Char) : Nat :=
  ds.foldl (fun acc c => acc * 10 + (c.toNat - 48)) 0

mutual

/-- `json.load` on the documents this program writes: skip leading
whitespace, then dispatch on the first character.  `fuel` bounds the
nesting depth. -/
def parseValue : Nat → List Char → Option (Json × List Char)
  | 0, _ => none
  | fuel + 1, input =>
    match skipWs input with
    | [] => none
    | c :: rest =>
      if c = '"' then
        (parseStringBody rest).map (fun p => (Json.jstr (String.mk p.1), p.2))
      else if c = '[' then
        match skipWs rest with
        | ']' :: r2 => some (Json.jarr [], r2)
        | r1 => (parseItems fuel r1).map (fun p => (Json.jarr p.1, p.2))
      else if c = '\x7b' then
        match skipWs rest with
        | '\x7d' :: r2 => some (Json.jobj [], r2)
        | r1 => (parseFields fuel r1).map (fun p => (Json.jobj p.1, p.2))
      else if c = '-' then
        match rest.takeWhile isDigitChar with
        | [] => none
        | ds => some (Json.jint (-(digitsVal ds : Int)), rest.dropWhile isDigitChar)
      else if isDigitChar c then
        some (Json.jint ((digitsVal ((c :: rest).takeWhile isDigitChar) : Nat) : Int),
          (c :: rest).dropWhile isDigitChar)
      else none

/-- Parse the elements of a non-empty array up to and including the
closing bracket. -/
def parseItems : Nat → List Char → Option (List Json × List Char)
  | 0, _ => none
  | fuel + 1, input =>
    (parseValue fuel input).bind (fun p =>
      match skipWs p.2 with
      | ',' :: r2 => (parseItems fuel r2).map (fun q => (p.1 :: q.1, q.2))
      | ']' :: r2 => some ([p.1], r2)
      | _ => none)

/-- Parse the fields of a non-empty object up to and including the
closing brace. -/
def parseFields : Nat → List Char → Option (List (String × Json) × List Char)
  | 0, _ => none
  | fuel + 1, input =>
    match skipWs input with
    | '"' :: rest =>
      (parseStringBody rest).bind (fun pk =>
        match skipWs pk.2 with
        | ':' :: r2 =>
          (parseValue fuel r2).bind (fun pv =>
            match skipWs pv.2 with
            | ',' :: r3 =>
              (parseFields fuel r3).map
                (fun q => ((String.mk pk.1, pv.1) :: q.1, q.2))
            | '\x7d' :: r3 => some ([(String.mk pk.1, pv.1)], r3)
            | _ => none)
        | _ => none)
    | _ => none

end

/-- `json.load` on a whole file: parse one value and require only
whitespace after it.  The fuel `s.length + 1` dominates the nesting
depth of any value whose rendering is `s`. -/
def parseJson (s : String) : Option Json :=
  match parseValue (s.length + 1) s.data with
  | some (j, rest) => if (skipWs rest).isEmpty then some j else none
  | none => none

/-!
## JSON round-trip: character and digit lemmas
-/

theorem skipWs_cons_not_ws (c : Char) (l : List Char) (h : isWsChar c = false) :
    skipWs (c :: l) = c :: l := by
  simp [skipWs, List.dropWhile_cons, h]

theorem skipWs_append_ws (ws l : List Char) (h : ∀ c ∈ ws, isWsChar c = true) :
    skipWs (ws ++ l) = skipWs l := by
  induction ws with
  | nil => simp
  | cons c cs ih =>
    have hc := h c (by simp)
    simp only [List.cons_append, skipWs, List.dropWhile_cons, hc, if_true]
    exact ih (fun d hd => h d (by simp [hd]))

theorem skipWs_indent (lvl : Nat) (l : List Char) :
    skipWs (indentChars lvl ++ l) = skipWs l := by
  apply skipWs_append_ws
  intro c hc
  rw [indentChars] at hc
  have := List.eq_of_mem_replicate hc
  subst this
  rfl

theorem digitChar_toNat (n : Nat) (h : n < 10) :
    (Nat.digitChar n).toNat = 48 + n := by
  interval_cases n <;> rfl

theorem isDigit_digitChar (n : Nat) (h : n < 10) :
    isDigitChar (Nat.digitChar n) = true := by
  simp only [isDigitChar, digitChar_toNat n h, Bool.and_eq_true, decide_eq_true_eq]
  omega

theorem hexVal_digitChar (n : Nat) (h : n < 16) :
    hexVal (Nat.digitChar n) = some n := by
  interval_cases n <;> rfl

theorem natDigits_all_digits (n : Nat) :
    ∀ c ∈ natDigits n, isDigitChar c = true := by
  induction n using Nat.strong_induction_on with
  | _ n ih =>
    rw [natDigits]
    split_ifs with h
    · intro c hc
      rw [List.mem_singleton] at hc
      subst hc
      exact isDigit_digitChar n h
    · intro c hc
      rw [List.mem_append] at hc
      rcases hc with hc | hc
      · exact ih (n / 10) (Nat.div_lt_self (by omega) (by omega)) c hc
      · rw [List.mem_singleton] at hc
        subst hc
        exact isDigit_digitChar (n % 10) (Nat.mod_lt n (by omega))

theorem natDigits_ne_nil (n : Nat) : natDigits n ≠ [] := by
  rw [natDigits]
  split_ifs
  · simp
  · simp

theorem digitsVal_natDigits (n : Nat) : digitsVal (natDigits n) = n := by
  induction n using Nat.strong_induction_on with
  | _ n ih =>
    rw [natDigits]
    split_ifs with h
    · simp [digitsVal, digitChar_toNat n h]
    · rw [digitsVal, List.foldl_append]
      have hrec := ih (n / 10) (Nat.div_lt_self (by omega) (by omega))
      rw [digitsVal] at hrec
      rw [hrec]
      simp only [List.foldl_cons, List.foldl_nil,
        digitChar_toNat (n % 10) (Nat.mod_lt n (by omega))]
      omega

theorem takeWhile_append_all (p : Char → Bool) (l r : List Char)
    (h : ∀ c ∈ l, p c = true) :
    (l ++ r).takeWhile p = l ++ r.takeWhile p := by
  induction l with
  | nil => simp
  | cons c cs ih =>
    have hc := h c (by simp)
    simp only [List.cons_append, List.takeWhile_cons, hc, if_true]
    rw [ih (fun d hd => h d (by simp [hd]))]

theorem dropWhile_append_all (p : Char → Bool) (l r : List Char)
    (h : ∀ c ∈ l, p c = true) :
    (l ++ r).dropWhile p = r.dropWhile p := by
  induction l with
  | nil => simp
  | cons c cs ih =>
    have hc := h c (by simp)
    simp only [List.cons_append, List.dropWhile_cons, hc, if_true]
    exact ih (fun d hd => h d (by simp [hd]))

/-- The character after a rendered number must not be a digit for the
number parse to stop there. -/
def numBoundary (l : List Char) : Bool :=
  match l with
  | [] => true
  | c :: _ => !(isDigitChar c)

theorem takeWhile_digits_boundary (r : List Char) (h : numBoundary r = true) :
    r.takeWhile isDigitChar = [] := by
  cases r with
  | nil => rfl
  | cons c cs =>
    rw [numBoundary] at h
    simp only [Bool.not_eq_true'] at h
    simp [List.takeWhile_cons, h]

theorem dropWhile_digits_boundary (r : List Char) (h : numBoundary r = true) :
    r.dropWhile isDigitChar = r := by
  cases r with
  | nil => rfl
  | cons c cs =>
    rw [numBoundary] at h
    simp only [Bool.not_eq_true'] at h
    simp [List.dropWhile_cons, h]

theorem parseStringBody_cons_plain (c : Char) (l : List Char)
    (hq : ¬c = '"') (hb : ¬c = '\\') :
    parseStringBody (c :: l)
      = (parseStringBody l).map (fun p => (c :: p.1, p.2)) := by
  rw [parseStringBody.eq_def]
  simp [hq, hb]

/-- Un-escaping inverts `json.dump`'s escaping, character by
character. -/
theorem parseStringBody_escape (s rest : List Char) :
    parseStringBody ((s.map escapeChar).flatten ++ '"' :: rest) = some (s, rest) := by
  induction s with
  | nil => simp [parseStringBody.eq_def]
  | cons c cs ih =>
    simp only [List.map_cons, List.flatten_cons, List.append_assoc]
    by_cases h1 : c = '"'
    · subst h1
      rw [show escapeChar '"' = ['\\', '"'] from rfl]
      simp only [List.cons_append, List.nil_append]
      rw [show ∀ l, parseStringBody ('\\' :: '"' :: l)
            = (parseStringBody l).map (fun p => ('"' :: p.1, p.2)) from fun _ => rfl, ih]
      rfl
    · by_cases h2 : c = '\\'
      · subst h2
        rw [show escapeChar '\\' = ['\\', '\\'] from rfl]
        simp only [List.cons_append, List.nil_append]
        rw [show ∀ l, parseStringBody ('\\' :: '\\' :: l)
              = (parseStringBody l).map (fun p => ('\\' :: p.1, p.2)) from fun _ => rfl, ih]
        rfl
      · by_cases h3 : c = '\n'
        · subst h3
          rw [show escapeChar '\n' = ['\\', 'n'] from rfl]
          simp only [List.cons_append, List.nil_append]
          rw [show ∀ l, parseStringBody ('\\' :: 'n' :: l)
                = (parseStringBody l).map (fun p => ('\n' :: p.1, p.2)) from fun _ => rfl, ih]
          rfl
        · by_cases h4 : c = '\t'
          · subst h4
            rw [show escapeChar '\t' = ['\\', 't'] from rfl]
            simp only [List.cons_append, List.nil_append]
            rw [show ∀ l, parseStringBody ('\\' :: 't' :: l)
                  = (parseStringBody l).map (fun p => ('\t' :: p.1, p.2)) from fun _ => rfl, ih]
            rfl
          · by_cases h5 : c = '\r'
            · subst h5
              rw [show escapeChar '\r' = ['\\', 'r'] from rfl]
              simp only [List.cons_append, List.nil_append]
              rw [show ∀ l, parseStringBody ('\\' :: 'r' :: l)
                    = (parseStringBody l).map (fun p => ('\r' :: p.1, p.2)) from fun _ => rfl, ih]
              rfl
            · by_cases h6 : c.toNat = 8
              · have hc : c = Char.ofNat 8 := by rw [← h6, Char.ofNat_toNat]
                subst hc
                rw [show escapeChar (Char.ofNat 8) = ['\\', 'b'] from rfl]
                simp only [List.cons_append, List.nil_append]
                rw [show ∀ l, parseStringBody ('\\' :: 'b' :: l)
                      = (parseStringBody l).map
                          (fun p => (Char.ofNat 8 :: p.1, p.2)) from fun _ => rfl, ih]
                rfl
              · by_cases h7 : c.toNat = 12
                · have hc : c = Char.ofNat 12 := by rw [← h7, Char.ofNat_toNat]
                  subst hc
                  rw [show escapeChar (Char.ofNat 12) = ['\\', 'f'] from rfl]
                  simp only [List.cons_append, List.nil_append]
                  rw [show ∀ l, parseStringBody ('\\' :: 'f' :: l)
                        = (parseStringBody l).map
                            (fun p => (Char.ofNat 12 :: p.1, p.2)) from fun _ => rfl, ih]
                  rfl
                · by_cases h8 : c.toNat < 32
                  · have hesc : escapeChar c
                        = ['\\', 'u', '0', '0', Nat.digitChar (c.toNat / 16),
                           Nat.digitChar (c.toNat % 16)] := by
                      rw [escapeChar, if_neg h1, if_neg h2, if_neg h3, if_neg h4,
                        if_neg h5, if_neg h6, if_neg h7, if_pos h8]
                    rw [hesc]
                    simp only [List.cons_append, List.nil_append]
                    have hd1 : hexVal (Nat.digitChar (c.toNat / 16))
                        = some (c.toNat / 16) := hexVal_digitChar _ (by omega)
                    have hd2 : hexVal (Nat.digitChar (c.toNat % 16))
                        = some (c.toNat % 16) := hexVal_digitChar _ (by omega)
                    rw [show ∀ d1 d2 l, parseStringBody ('\\' :: 'u' :: '0' :: '0' :: d1 :: d2 :: l)
                          = (match hexVal '0', hexVal '0', hexVal d1, hexVal d2 with
                             | some a, some b, some c2, some d =>
                               (parseStringBody l).map
                                 (fun p => (Char.ofNat (((a * 16 + b) * 16 + c2) * 16 + d)
                                   :: p.1, p.2))
                             | _, _, _, _ => none) from fun _ _ _ => rfl]
                    rw [hd1, hd2, show hexVal '0' = some 0 from rfl]
                    show (parseStringBody ((cs.map escapeChar).flatten ++ '"' :: rest)).map
                        (fun p => (Char.ofNat (((0 * 16 + 0) * 16 + c.toNat / 16) * 16
                          + c.toNat % 16) :: p.1, p.2))
                      = some (c :: cs, rest)
                    rw [ih]
                    have harith : ((((0 : Nat) * 16 + 0) * 16 + c.toNat / 16) * 16
                        + c.toNat % 16) = c.toNat := by omega
                    show some (Char.ofNat (((0 * 16 + 0) * 16 + c.toNat / 16) * 16
                        + c.toNat % 16) :: cs, rest) = some (c :: cs, rest)
                    rw [harith, Char.ofNat_toNat]
                  · have hesc : escapeChar c = [c] := by
                      rw [escapeChar, if_neg h1, if_neg h2, if_neg h3, if_neg h4,
                        if_neg h5, if_neg h6, if_neg h7, if_neg h8]
                    rw [hesc]
                    simp only [List.cons_append, List.nil_append]
                    rw [parseStringBody_cons_plain c _ h1 h2, ih]
                    rfl

/-!
## JSON round-trip: parser-step lemmas
-/

/-- Whitespace-only character lists. -/
def WsList (ws : List Char) : Prop := ∀ c ∈ ws, isWsChar c = true

theorem wsList_nil : WsList [] := by intro c hc; cases hc

theorem wsList_newline_indent (lvl : Nat) : WsList ('\n' :: indentChars lvl) := by
  intro c hc
  rcases List.mem_cons.mp hc with h | h
  · subst h; rfl
  · rw [indentChars] at h
    rw [List.eq_of_mem_replicate h]
    rfl

theorem digit_toNat_bounds (c : Char) (h : isDigitChar c = true) :
    48 ≤ c.toNat ∧ c.toNat ≤ 57 := by
  simpa [isDigitChar, Bool.and_eq_true, decide_eq_true_eq] using h

theorem digit_ne (d c : Char) (h : isDigitChar d = true)
    (hc : c.toNat < 48 ∨ 57 < c.toNat) : ¬ d = c := by
  intro he
  subst he
  have := digit_toNat_bounds d h
  omega

theorem digit_not_ws (c : Char) (h : isDigitChar c = true) : isWsChar c = false := by
  have hb := digit_toNat_bounds c h
  have h1 : ¬ c = ' ' := by intro he; subst he; exact absurd hb (by decide)
  have h2 : ¬ c = '\n' := by intro he; subst he; exact absurd hb (by decide)
  have h3 : ¬ c = '\t' := by intro he; subst he; exact absurd hb (by decide)
  have h4 : ¬ c = '\r' := by intro he; subst he; exact absurd hb (by decide)
  simp [isWsChar, h1, h2, h3, h4]

theorem ws_not_digit (c : Char) (h : isWsChar c = true) : isDigitChar c = false := by
  rw [isWsChar] at h
  simp only [Bool.or_eq_true, decide_eq_true_eq] at h
  rcases h with ((h | h) | h) | h <;> (subst h; rfl)

theorem numBoundary_ws_close (wsC rest : List Char) (hwsC : WsList wsC)
    (c : Char) (hc : isDigitChar c = false) :
    numBoundary (wsC ++ c :: rest) = true := by
  cases wsC with
  | nil => simp [numBoundary, hc]
  | cons w ws =>
    have := ws_not_digit w (hwsC w (by simp))
    simp [numBoundary, this]

/-- One unfolding of `parseValue` at positive fuel. -/
theorem parseValue_succ (fuel : Nat) (input : List Char) :
    parseValue (fuel + 1) input =
      match skipWs input with
      | [] => none
      | c :: rest =>
        if c = '"' then
          (parseStringBody rest).map (fun p => (Json.jstr (String.mk p.1), p.2))
        else if c = '[' then
          match skipWs rest with
          | ']' :: r2 => some (Json.jarr [], r2)
          | r1 => (parseItems fuel r1).map (fun p => (Json.jarr p.1, p.2))
        else if c = '\x7b' then
          match skipWs rest with
          | '\x7d' :: r2 => some (Json.jobj [], r2)
          | r1 => (parseFields fuel r1).map (fun p => (Json.jobj p.1, p.2))
        else if c = '-' then
          match rest.takeWhile isDigitChar with
          | [] => none
          | ds => some (Json.jint (-(digitsVal ds : Int)), rest.dropWhile isDigitChar)
        else if isDigitChar c then
          some (Json.jint ((digitsVal ((c :: rest).takeWhile isDigitChar) : Nat) : Int),
            (c :: rest).dropWhile isDigitChar)
        else none := by
  rw [parseValue.eq_def]

/-- One unfolding of `parseItems` at positive fuel. -/
theorem parseItems_succ (fuel : Nat) (input : List Char) :
    parseItems (fuel + 1) input =
      (parseValue fuel input).bind (fun p =>
        match skipWs p.2 with
        | ',' :: r2 => (parseItems fuel r2).map (fun q => (p.1 :: q.1, q.2))
        | ']' :: r2 => some ([p.1], r2)
        | _ => none) := by
  rw [parseItems.eq_def]

/-- One unfolding of `parseFields` at positive fuel. -/
theorem parseFields_succ (fuel : Nat) (input : List Char) :
    parseFields (fuel + 1) input =
      match skipWs input with
      | '"' :: rest =>
        (parseStringBody rest).bind (fun pk =>
          match skipWs pk.2 with
          | ':' :: r2 =>
            (parseValue fuel r2).bind (fun pv =>
              match skipWs pv.2 with
              | ',' :: r3 =>
                (parseFields fuel r3).map
                  (fun q => ((String.mk pk.1, pv.1) :: q.1, q.2))
              | '\x7d' :: r3 => some ([(String.mk pk.1, pv.1)], r3)
              | _ => none)
          | _ => none)
      | _ => none := by
  rw [parseFields.eq_def]

/-- Every rendered value starts with a quote, bracket, brace, minus
sign or digit — never whitespace, and never a closing delimiter. -/
theorem renderChars_head (lvl : Nat) (j : Json) :
    ∃ c t, renderChars lvl j = c :: t ∧ isWsChar c = false ∧
      ¬ c = ']' ∧ ¬ c = '\x7d' ∧ ¬ c = ',' ∧ ¬ c = ':' := by
  cases j with
  | jint n =>
    rw [renderChars, intChars]
    by_cases hn : n < 0
    · rw [if_pos hn]
      exact ⟨'-', _, rfl, rfl, by decide, by decide, by decide, by decide⟩
    · rw [if_neg hn]
      obtain ⟨d, ds, hdig⟩ : ∃ d ds, natDigits n.natAbs = d :: ds := by
        cases hnd : natDigits n.natAbs with
        | nil => exact absurd hnd (natDigits_ne_nil _)
        | cons d ds => exact ⟨d, ds, rfl⟩
      have hd0 : isDigitChar d = true :=
        natDigits_all_digits _ d (by rw [hdig]; simp)
      refine ⟨d, ds, hdig, digit_not_ws d hd0, ?_, ?_, ?_, ?_⟩
      · exact digit_ne d _ hd0 (by right; decide)
      · exact digit_ne d _ hd0 (by right; decide)
      · exact digit_ne d _ hd0 (by left; decide)
      · exact digit_ne d _ hd0 (by right; decide)
  | jstr s =>
    rw [renderChars, strChars]
    exact ⟨'"', _, rfl, rfl, by decide, by decide, by decide, by decide⟩
  | jarr xs =>
    cases xs with
    | nil => exact ⟨'[', _, rfl, rfl, by decide, by decide, by decide, by decide⟩
    | cons x xs =>
      exact ⟨'[', _, rfl, rfl, by decide, by decide, by decide, by decide⟩
  | jobj fs =>
    cases fs with
    | nil => exact ⟨'\x7b', _, rfl, rfl, by decide, by decide, by decide, by decide⟩
    | cons f fs =>
      exact ⟨'\x7b', _, rfl, rfl, by decide, by decide, by decide, by decide⟩

theorem parseValue_body (fuel : Nat) (c : Char) (l : List Char)
    (hc : isWsChar c = false) :
    parseValue (fuel + 1) (c :: l) =
      (if c = '"' then
        (parseStringBody l).map (fun p => (Json.jstr (String.mk p.1), p.2))
      else if c = '[' then
        match skipWs l with
        | ']' :: r2 => some (Json.jarr [], r2)
        | r1 => (parseItems fuel r1).map (fun p => (Json.jarr p.1, p.2))
      else if c = '\x7b' then
        match skipWs l with
        | '\x7d' :: r2 => some (Json.jobj [], r2)
        | r1 => (parseFields fuel r1).map (fun p => (Json.jobj p.1, p.2))
      else if c = '-' then
        match l.takeWhile isDigitChar with
        | [] => none
        | ds => some (Json.jint (-(digitsVal ds : Int)), l.dropWhile isDigitChar)
      else if isDigitChar c then
        some (Json.jint ((digitsVal ((c :: l).takeWhile isDigitChar) : Nat) : Int),
          (c :: l).dropWhile isDigitChar)
      else none) := by
  rw [parseValue_succ, skipWs_cons_not_ws _ _ hc]

theorem parseValue_digit (fuel : Nat) (c : Char) (l : List Char)
    (hc : isDigitChar c = true) :
    parseValue (fuel + 1) (c :: l)
      = some (Json.jint ((digitsVal ((c :: l).takeWhile isDigitChar) : Nat) : Int),
          (c :: l).dropWhile isDigitChar) := by
  rw [parseValue_body fuel c l (digit_not_ws c hc),
    if_neg (digit_ne c '"' hc (by left; decide)),
    if_neg (digit_ne c '[' hc (by right; decide)),
    if_neg (digit_ne c '\x7b' hc (by right; decide)),
    if_neg (digit_ne c '-' hc (by left; decide)),
    if_pos hc]

theorem parseValue_neg_num (fuel : Nat) (l : List Char) :
    parseValue (fuel + 1) ('-' :: l)
      = match l.takeWhile isDigitChar with
        | [] => none
        | ds => some (Json.jint (-(digitsVal ds : Int)), l.dropWhile isDigitChar) := by
  rw [parseValue_body fuel '-' l (by decide),
    if_neg (by decide), if_neg (by decide), if_neg (by decide), if_pos rfl]

theorem parseValue_quote (fuel : Nat) (l : List Char) :
    parseValue (fuel + 1) ('"' :: l)
      = (parseStringBody l).map (fun p => (Json.jstr (String.mk p.1), p.2)) := by
  rw [parseValue_body fuel '"' l (by decide), if_pos rfl]

theorem parseValue_lbracket (fuel : Nat) (l : List Char) :
    parseValue (fuel + 1) ('[' :: l)
      = match skipWs l with
        | ']' :: r2 => some (Json.jarr [], r2)
        | r1 => (parseItems fuel r1).map (fun p => (Json.jarr p.1, p.2)) := by
  rw [parseValue_body fuel '[' l (by decide), if_neg (by decide), if_pos rfl]

theorem parseValue_lbrace (fuel : Nat) (l : List Char) :
    parseValue (fuel + 1) ('\x7b' :: l)
      = match skipWs l with
        | '\x7d' :: r2 => some (Json.jobj [], r2)
        | r1 => (parseFields fuel r1).map (fun p => (Json.jobj p.1, p.2)) := by
  rw [parseValue_body fuel '\x7b' l (by decide), if_neg (by decide), if_neg (by decide),
    if_pos rfl]

theorem jsonDepth_pos (j : Json) : 1 ≤ jsonDepth j := by
  cases j with
  | jint n => rw [jsonDepth]
  | jstr s => rw [jsonDepth]
  | jarr xs => cases xs <;> (rw [jsonDepth]; try omega)
  | jobj fs => cases fs <;> (rw [jsonDepth]; try omega)

theorem itemsDepth_pos (x : Json) (xs : List Json) : 1 ≤ itemsDepth x xs := by
  cases xs <;> (rw [itemsDepth]; omega)

theorem fieldsDepth_pos (k : String) (v : Json) (fs : List (String × Json)) :
    1 ≤ fieldsDepth (k, v) fs := by
  cases fs <;> (rw [fieldsDepth]; omega)

theorem itemsDepth_head_le (x : Json) (xs : List Json) (fuel : Nat)
    (h : itemsDepth x xs ≤ fuel + 1) : jsonDepth x ≤ fuel := by
  cases xs with
  | nil => rw [itemsDepth] at h; omega
  | cons y ys =>
    rw [itemsDepth] at h
    have := Nat.le_max_left (jsonDepth x) (itemsDepth y ys)
    omega

theorem itemsDepth_tail_le (x y : Json) (ys : List Json) (fuel : Nat)
    (h : itemsDepth x (y :: ys) ≤ fuel + 1) : itemsDepth y ys ≤ fuel := by
  rw [itemsDepth] at h
  have := Nat.le_max_right (jsonDepth x) (itemsDepth y ys)
  omega

theorem fieldsDepth_head_le (k : String) (v : Json) (fs : List (String × Json)) (fuel : Nat)
    (h : fieldsDepth (k, v) fs ≤ fuel + 1) : jsonDepth v ≤ fuel := by
  cases fs with
  | nil => rw [fieldsDepth] at h; omega
  | cons g gs =>
    rw [fieldsDepth] at h
    have := Nat.le_max_left (jsonDepth v) (fieldsDepth g gs)
    omega

theorem fieldsDepth_tail_le (k : String) (v : Json) (g : String × Json)
    (gs : List (String × Json)) (fuel : Nat)
    (h : fieldsDepth (k, v) (g :: gs) ≤ fuel + 1) : fieldsDepth g gs ≤ fuel := by
  rw [fieldsDepth] at h
  have := Nat.le_max_right (jsonDepth v) (fieldsDepth g gs)
  omega

theorem parseValue_ws (fuel : Nat) (ws l : List Char) (hws : WsList ws) :
    parseValue (fuel + 1) (ws ++ l) = parseValue (fuel + 1) l := by
  rw [parseValue_succ, parseValue_succ, skipWs_append_ws ws l hws]

theorem skipWs_render (lvl : Nat) (j : Json) (m : List Char) :
    skipWs (renderChars lvl j ++ m) = renderChars lvl j ++ m := by
  obtain ⟨c, t, hct, hcw, _, _, _, _⟩ := renderChars_head lvl j
  rw [hct, List.cons_append, skipWs_cons_not_ws _ _ hcw]

theorem skipWs_strChars (k : String) (m : List Char) :
    skipWs (strChars k ++ m) = strChars k ++ m := by
  have h : strChars k ++ m
      = '"' :: ((k.data.map escapeChar).flatten ++ ['"'] ++ m) := by
    rw [strChars]
    simp
  rw [h, skipWs_cons_not_ws '"' _ (by decide), ← h]

theorem natDigits_natAbs_take (n : Int) (rest : List Char)
    (hb : numBoundary rest = true) :
    (natDigits n.natAbs ++ rest).takeWhile isDigitChar = natDigits n.natAbs ∧
    (natDigits n.natAbs ++ rest).dropWhile isDigitChar = rest := by
  constructor
  · rw [takeWhile_append_all _ _ _ (natDigits_all_digits _),
      takeWhile_digits_boundary rest hb, List.append_nil]
  · rw [dropWhile_append_all _ _ _ (natDigits_all_digits _),
      dropWhile_digits_boundary rest hb]

/-- The joint induction: a rendered value (item list, field list)
parses back to itself, leaving exactly the trailing input, whenever
the fuel covers its depth.  `ws` is an arbitrary whitespace prefix
and `wsC` the whitespace before the closing delimiter. -/
theorem parse_render_aux : ∀ fuel : Nat,
    (∀ (j : Json) (lvl : Nat) (ws rest : List Char),
       WsList ws → jsonDepth j ≤ fuel → numBoundary rest = true →
       parseValue fuel (ws ++ (renderChars lvl j ++ rest)) = some (j, rest)) ∧
    (∀ (x : Json) (xs : List Json) (lvl : Nat) (ws wsC rest : List Char),
       WsList ws → WsList wsC → itemsDepth x xs ≤ fuel →
       parseItems fuel
           (ws ++ (renderChars lvl x ++ (itemsTail lvl xs ++ (wsC ++ (']' :: rest)))))
         = some (x :: xs, rest)) ∧
    (∀ (k : String) (v : Json) (fs : List (String × Json)) (lvl : Nat)
       (ws wsC rest : List Char),
       WsList ws → WsList wsC → fieldsDepth (k, v) fs ≤ fuel →
       parseFields fuel
           (ws ++ (strChars k ++ (':' :: ' ' ::
             (renderChars lvl v ++ (fieldsTail lvl fs ++ (wsC ++ ('\x7d' :: rest)))))))
         = some ((k, v) :: fs, rest)) := by
  intro fuel
  induction fuel with
  | zero =>
    refine ⟨?_, ?_, ?_⟩
    · intro j _ _ _ _ hd _
      exact absurd hd (by have := jsonDepth_pos j; omega)
    · intro x xs _ _ _ _ _ _ hd
      exact absurd hd (by have := itemsDepth_pos x xs; omega)
    · intro k v fs _ _ _ _ _ _ hd
      exact absurd hd (by have := fieldsDepth_pos k v fs; omega)
  | succ fuel ih =>
    obtain ⟨ihV, ihI, ihF⟩ := ih
    refine ⟨?_, ?_, ?_⟩
    · -- values
      intro j lvl ws rest hws hd hb
      rw [parseValue_ws fuel ws _ hws]
      cases j with
      | jint n =>
        obtain ⟨d, ds, hdig⟩ : ∃ d ds, natDigits n.natAbs = d :: ds := by
          cases hnd : natDigits n.natAbs with
          | nil => exact absurd hnd (natDigits_ne_nil _)
          | cons d ds => exact ⟨d, ds, rfl⟩
        have hd0 : isDigitChar d = true :=
          natDigits_all_digits _ d (by rw [hdig]; simp)
        obtain ⟨htake, hdrop⟩ := natDigits_natAbs_take n rest hb
        by_cases hn : n < 0
        · have hrc : renderChars lvl (Json.jint n) ++ rest
              = '-' :: (natDigits n.natAbs ++ rest) := by
            rw [renderChars, intChars, if_pos hn, List.cons_append]
          rw [hrc, parseValue_neg_num, htake, hdrop, hdig]
          show some (Json.jint (-(digitsVal (d :: ds) : Int)), rest)
            = some (Json.jint n, rest)
          rw [← hdig, digitsVal_natDigits]
          have hval : (-(n.natAbs : Int)) = n := by omega
          rw [hval]
        · have hrc : renderChars lvl (Json.jint n) ++ rest
              = d :: (ds ++ rest) := by
            rw [renderChars, intChars, if_neg hn, hdig, List.cons_append]
          have hcons : d :: (ds ++ rest) = natDigits n.natAbs ++ rest := by
            rw [hdig, List.cons_append]
          rw [hrc, parseValue_digit fuel d (ds ++ rest) hd0, hcons, htake, hdrop,
            digitsVal_natDigits]
          have hval : ((n.natAbs : Nat) : Int) = n := by omega
          rw [hval]
      | jstr s =>
        have hrc : renderChars lvl (Json.jstr s) ++ rest
            = '"' :: ((s.data.map escapeChar).flatten ++ '"' :: rest) := by
          rw [renderChars, strChars]
          simp [List.append_assoc]
        rw [hrc, parseValue_quote, parseStringBody_escape]
        show some (Json.jstr (String.mk s.data), rest) = some (Json.jstr s, rest)
        rfl
      | jarr xs =>
        cases xs with
        | nil =>
          have hrc : renderChars lvl (Json.jarr []) ++ rest
              = '[' :: (']' :: rest) := by
            rw [renderChars]
            simp
          rw [hrc, parseValue_lbracket, skipWs_cons_not_ws ']' _ (by decide)]
          split
          · rename_i r2 heq
            rw [List.cons.injEq] at heq
            rw [heq.2]
          · rename_i h1
            exact absurd rfl (h1 rest)
        | cons x xs =>
          have hdep : itemsDepth x xs ≤ fuel := by
            rw [jsonDepth] at hd; omega
          have hrc : renderChars lvl (Json.jarr (x :: xs)) ++ rest
              = '[' :: ('\n' :: (indentChars (lvl + 1) ++ (renderChars (lvl + 1) x ++
                  (itemsTail (lvl + 1) xs ++ (('\n' :: indentChars lvl) ++ (']' :: rest)))))) := by
            rw [renderChars]
            simp [List.append_assoc]
          rw [hrc, parseValue_lbracket]
          have hskip : skipWs ('\n' :: (indentChars (lvl + 1) ++ (renderChars (lvl + 1) x ++
              (itemsTail (lvl + 1) xs ++ (('\n' :: indentChars lvl) ++ (']' :: rest))))))
              = renderChars (lvl + 1) x ++
                  (itemsTail (lvl + 1) xs ++ (('\n' :: indentChars lvl) ++ (']' :: rest))) := by
            rw [show ('\n' :: (indentChars (lvl + 1) ++ (renderChars (lvl + 1) x ++
                (itemsTail (lvl + 1) xs ++ (('\n' :: indentChars lvl) ++ (']' :: rest))))))
              = ('\n' :: indentChars (lvl + 1)) ++ (renderChars (lvl + 1) x ++
                (itemsTail (lvl + 1) xs ++ (('\n' :: indentChars lvl) ++ (']' :: rest))))
              from by simp,
              skipWs_append_ws _ _ (wsList_newline_indent _), skipWs_render]
          rw [hskip]
          obtain ⟨c, t, hct, _, hnrb, _, _, _⟩ := renderChars_head (lvl + 1) x
          rw [hct, List.cons_append]
          split
          · rename_i r2 heq
            rw [List.cons.injEq] at heq
            exact absurd heq.1 hnrb
          · rw [← List.cons_append, ← hct]
            have H := ihI x xs (lvl + 1) [] ('\n' :: indentChars lvl) rest wsList_nil
              (wsList_newline_indent lvl) hdep
            simp only [List.nil_append] at H
            rw [H]
            rfl
      | jobj fs =>
        cases fs with
        | nil =>
          have hrc : renderChars lvl (Json.jobj []) ++ rest
              = '\x7b' :: ('\x7d' :: rest) := by
            rw [renderChars]
            simp
          rw [hrc, parseValue_lbrace, skipWs_cons_not_ws '\x7d' _ (by decide)]
          split
          · rename_i r2 heq
            rw [List.cons.injEq] at heq
            rw [heq.2]
          · rename_i h1
            exact absurd rfl (h1 rest)
        | cons f fs =>
          obtain ⟨k, v⟩ := f
          have hdep : fieldsDepth (k, v) fs ≤ fuel := by
            rw [jsonDepth] at hd; omega
          have hrc : renderChars lvl (Json.jobj ((k, v) :: fs)) ++ rest
              = '\x7b' :: ('\n' :: (indentChars (lvl + 1) ++ (strChars k ++ (':' :: ' ' ::
                  (renderChars (lvl + 1) v ++ (fieldsTail (lvl + 1) fs ++
                    (('\n' :: indentChars lvl) ++ ('\x7d' :: rest)))))))) := by
            rw [renderChars]
            simp [List.append_assoc]
          rw [hrc, parseValue_lbrace]
          have hskip : skipWs ('\n' :: (indentChars (lvl + 1) ++ (strChars k ++ (':' :: ' ' ::
              (renderChars (lvl + 1) v ++ (fieldsTail (lvl + 1) fs ++
                (('\n' :: indentChars lvl) ++ ('\x7d' :: rest))))))))
              = strChars k ++ (':' :: ' ' ::
                  (renderChars (lvl + 1) v ++ (fieldsTail (lvl + 1) fs ++
                    (('\n' :: indentChars lvl) ++ ('\x7d' :: rest))))) := by
            rw [show ('\n' :: (indentChars (lvl + 1) ++ (strChars k ++ (':' :: ' ' ::
                (renderChars (lvl + 1) v ++ (fieldsTail (lvl + 1) fs ++
                  (('\n' :: indentChars lvl) ++ ('\x7d' :: rest))))))))
              = ('\n' :: indentChars (lvl + 1)) ++ (strChars k ++ (':' :: ' ' ::
                (renderChars (lvl + 1) v ++ (fieldsTail (lvl + 1) fs ++
                  (('\n' :: indentChars lvl) ++ ('\x7d' :: rest))))))
              from by simp,
              skipWs_append_ws _ _ (wsList_newline_indent _), skipWs_strChars]
          rw [hskip]
          have hsc : strChars k ++ (':' :: ' ' ::
              (renderChars (lvl + 1) v ++ (fieldsTail (lvl + 1) fs ++
                (('\n' :: indentChars lvl) ++ ('\x7d' :: rest)))))
              = '"' :: ((k.data.map escapeChar).flatten ++ ('"' :: (':' :: ' ' ::
                (renderChars (lvl + 1) v ++ (fieldsTail (lvl + 1) fs ++
                  (('\n' :: indentChars lvl) ++ ('\x7d' :: rest))))))) := by
            rw [strChars]
            simp
          rw [hsc]
          split
          · rename_i r2 heq
            rw [List.cons.injEq] at heq
            exact absurd heq.1 (by decide)
          · rw [← hsc]
            have H := ihF k v fs (lvl + 1) [] ('\n' :: indentChars lvl) rest wsList_nil
              (wsList_newline_indent lvl) hdep
            simp only [List.nil_append] at H
            rw [H]
            rfl
    · -- item lists
      intro x xs lvl ws wsC rest hws hwsC hdp
      have hbound : numBoundary (itemsTail lvl xs ++ (wsC ++ (']' :: rest))) = true := by
        cases xs with
        | nil =>
          rw [itemsTail, List.nil_append]
          exact numBoundary_ws_close wsC rest hwsC ']' (by decide)
        | cons y ys =>
          rw [itemsTail, List.cons_append]
          rfl
      have hV := ihV x lvl ws (itemsTail lvl xs ++ (wsC ++ (']' :: rest))) hws
        (itemsDepth_head_le x xs fuel hdp) hbound
      rw [parseItems_succ, hV]
      show (match skipWs (itemsTail lvl xs ++ (wsC ++ (']' :: rest))) with
        | ',' :: r2 => (parseItems fuel r2).map (fun q => (x :: q.1, q.2))
        | ']' :: r2 => some ([x], r2)
        | _ => none) = some (x :: xs, rest)
      cases xs with
      | nil =>
        rw [itemsTail, List.nil_append, skipWs_append_ws _ _ hwsC,
          skipWs_cons_not_ws ']' _ (by decide)]
        split
        · rename_i r2 heq
          rw [List.cons.injEq] at heq
          exact absurd heq.1 (by decide)
        · rename_i r2 heq
          rw [List.cons.injEq] at heq
          rw [heq.2]
        · rename_i h1 h2
          exact absurd rfl (h2 rest)
      | cons y ys =>
        rw [itemsTail, List.cons_append, skipWs_cons_not_ws ',' _ (by decide)]
        split
        · rename_i r2 heq
          rw [List.cons.injEq] at heq
          rw [← heq.2]
          have H := ihI y ys lvl ('\n' :: indentChars lvl) wsC rest
            (wsList_newline_indent lvl) hwsC (itemsDepth_tail_le x y ys fuel hdp)
          simp only [List.cons_append, List.nil_append, List.append_assoc] at H ⊢
          rw [H]
          rfl
        · rename_i r2 heq
          rw [List.cons.injEq] at heq
          exact absurd heq.1 (by decide)
        · rename_i h1 h2
          exact absurd rfl (h1 _)
    · -- field lists
      intro k v fs lvl ws wsC rest hws hwsC hdp
      have hbound : numBoundary (fieldsTail lvl fs ++ (wsC ++ ('\x7d' :: rest))) = true := by
        cases fs with
        | nil =>
          rw [fieldsTail, List.nil_append]
          exact numBoundary_ws_close wsC rest hwsC '\x7d' (by decide)
        | cons g gs =>
          rw [fieldsTail, List.cons_append]
          rfl
      rw [parseFields_succ, skipWs_append_ws _ _ hws, skipWs_strChars]
      have hsc : strChars k ++ (':' :: ' ' ::
          (renderChars lvl v ++ (fieldsTail lvl fs ++ (wsC ++ ('\x7d' :: rest)))))
          = '"' :: ((k.data.map escapeChar).flatten ++ ('"' :: (':' :: ' ' ::
            (renderChars lvl v ++ (fieldsTail lvl fs ++ (wsC ++ ('\x7d' :: rest))))))) := by
        rw [strChars]
        simp
      rw [hsc]
      split
      · rename_i r2 heq
        rw [List.cons.injEq] at heq
        rw [← heq.2]
        rw [show ((k.data.map escapeChar).flatten ++ ('"' :: (':' :: ' ' ::
            (renderChars lvl v ++ (fieldsTail lvl fs ++ (wsC ++ ('\x7d' :: rest)))))))
          = ((k.data.map escapeChar).flatten ++ '"' :: (':' :: ' ' ::
            (renderChars lvl v ++ (fieldsTail lvl fs ++ (wsC ++ ('\x7d' :: rest))))))
          from rfl, parseStringBody_escape]
        show (match skipWs (':' :: ' ' ::
            (renderChars lvl v ++ (fieldsTail lvl fs ++ (wsC ++ ('\x7d' :: rest))))) with
          | ':' :: r2 =>
            (parseValue fuel r2).bind (fun pv =>
              match skipWs pv.2 with
              | ',' :: r3 =>
                (parseFields fuel r3).map
                  (fun q => ((String.mk k.data, pv.1) :: q.1, q.2))
              | '\x7d' :: r3 => some ([(String.mk k.data, pv.1)], r3)
              | _ => none)
          | _ => none) = some ((k, v) :: fs, rest)
        rw [skipWs_cons_not_ws ':' _ (by decide)]
        split
        · rename_i r3 heq2
          rw [List.cons.injEq] at heq2
          rw [← heq2.2]
          have hV := ihV v lvl [' '] (fieldsTail lvl fs ++ (wsC ++ ('\x7d' :: rest)))
            (by intro c hc; rw [List.mem_singleton] at hc; subst hc; rfl)
            (fieldsDepth_head_le k v fs fuel hdp) hbound
          rw [show (' ' :: (renderChars lvl v ++ (fieldsTail lvl fs ++ (wsC ++ ('\x7d' :: rest)))))
              = [' '] ++ (renderChars lvl v ++ (fieldsTail lvl fs ++ (wsC ++ ('\x7d' :: rest))))
            from rfl, hV]
          show (match skipWs (fieldsTail lvl fs ++ (wsC ++ ('\x7d' :: rest))) with
            | ',' :: r3 =>
              (parseFields fuel r3).map
                (fun q => ((String.mk k.data, v) :: q.1, q.2))
            | '\x7d' :: r3 => some ([(String.mk k.data, v)], r3)
            | _ => none) = some ((k, v) :: fs, rest)
          cases fs with
          | nil =>
            rw [fieldsTail, List.nil_append, skipWs_append_ws _ _ hwsC,
              skipWs_cons_not_ws '\x7d' _ (by decide)]
            split
            · rename_i r4 heq3
              rw [List.cons.injEq] at heq3
              exact absurd heq3.1 (by decide)
            · rename_i r4 heq3
              rw [List.cons.injEq] at heq3
              rw [heq3.2]
            · rename_i h1 h2
              exact absurd rfl (h2 rest)
          | cons g gs =>
            rw [fieldsTail, List.cons_append, skipWs_cons_not_ws ',' _ (by decide)]
            split
            · rename_i r4 heq3
              rw [List.cons.injEq] at heq3
              rw [← heq3.2]
              have H := ihF g.1 g.2 gs lvl ('\n' :: indentChars lvl) wsC rest
                (wsList_newline_indent lvl) hwsC
                (fieldsDepth_tail_le k v g gs fuel hdp)
              simp only [List.cons_append, List.nil_append, List.append_assoc] at H ⊢
              rw [H]
              show some ((String.mk k.data, v) :: (g.1, g.2) :: gs, rest)
                = some ((k, v) :: g :: gs, rest)
              rfl
            · rename_i r4 heq3
              rw [List.cons.injEq] at heq3
              exact absurd heq3.1 (by decide)
            · rename_i h1 h2
              exact absurd rfl (h1 _)
        · rename_i h1
          exact absurd rfl (h1 _)
      · rename_i h1
        exact absurd rfl (h1 _)

/-- The parse depth of a value never exceeds the length of its
rendering (joined with the analogous bounds for item and field
tails), so the fuel `length + 1` used by `parseJson` always
suffices. -/
theorem depth_le_render : ∀ n : Nat,
    (∀ (j : Json) (lvl : Nat), sizeOf j ≤ n →
       jsonDepth j ≤ (renderChars lvl j).length) ∧
    (∀ (x : Json) (xs : List Json) (lvl : Nat), sizeOf x + sizeOf xs ≤ n →
       itemsDepth x xs ≤ (renderChars lvl x).length + (itemsTail lvl xs).length + 1) ∧
    (∀ (k : String) (v : Json) (fs : List (String × Json)) (lvl : Nat),
       sizeOf v + sizeOf fs ≤ n →
       fieldsDepth (k, v) fs
         ≤ (renderChars lvl v).length + (fieldsTail lvl fs).length + 1) := by
  intro n
  induction n using Nat.strong_induction_on with
  | _ n ih =>
    refine ⟨?_, ?_, ?_⟩
    · intro j lvl hsz
      cases j with
      | jint m =>
        obtain ⟨c, t, hct, -, -, -, -, -⟩ := renderChars_head lvl (Json.jint m)
        rw [hct]
        simp [jsonDepth]
      | jstr s =>
        obtain ⟨c, t, hct, -, -, -, -, -⟩ := renderChars_head lvl (Json.jstr s)
        rw [hct]
        simp [jsonDepth]
      | jarr xs =>
        cases xs with
        | nil =>
          obtain ⟨c, t, hct, -, -, -, -, -⟩ := renderChars_head lvl (Json.jarr [])
          rw [hct]
          simp [jsonDepth]
        | cons x xs =>
          simp only [Json.jarr.sizeOf_spec, List.cons.sizeOf_spec] at hsz
          have hm : sizeOf x + sizeOf xs < n := by omega
          have hI := (ih _ hm).2.1 x xs (lvl + 1) (le_refl _)
          rw [jsonDepth, renderChars]
          simp only [List.length_cons, List.length_append, indentChars,
            List.length_replicate]
          omega
      | jobj fs =>
        cases fs with
        | nil =>
          obtain ⟨c, t, hct, -, -, -, -, -⟩ := renderChars_head lvl (Json.jobj [])
          rw [hct]
          simp [jsonDepth]
        | cons f fs =>
          obtain ⟨k, v⟩ := f
          simp only [Json.jobj.sizeOf_spec, List.cons.sizeOf_spec,
            Prod.mk.sizeOf_spec] at hsz
          have hm : sizeOf v + sizeOf fs < n := by omega
          have hF := (ih _ hm).2.2 k v fs (lvl + 1) (le_refl _)
          rw [jsonDepth, renderChars]
          simp only [List.length_cons, List.length_append, indentChars,
            List.length_replicate]
          omega
    · intro x xs lvl hsz
      cases xs with
      | nil =>
        simp only [List.nil.sizeOf_spec] at hsz
        have hm : sizeOf x < n := by omega
        have hV := (ih _ hm).1 x lvl (le_refl _)
        rw [itemsDepth, itemsTail]
        simp only [List.length_nil]
        omega
      | cons y ys =>
        simp only [List.cons.sizeOf_spec] at hsz
        have hmx : sizeOf x < n := by omega
        have hmy : sizeOf y + sizeOf ys < n := by omega
        have hV := (ih _ hmx).1 x lvl (le_refl _)
        have hI := (ih _ hmy).2.1 y ys lvl (le_refl _)
        rw [itemsDepth, itemsTail]
        simp only [List.length_cons, List.length_append, indentChars,
          List.length_replicate]
        omega
    · intro k v fs lvl hsz
      cases fs with
      | nil =>
        simp only [List.nil.sizeOf_spec] at hsz
        have hm : sizeOf v < n := by omega
        have hV := (ih _ hm).1 v lvl (le_refl _)
        rw [fieldsDepth, fieldsTail]
        simp only [List.length_nil]
        omega
      | cons g gs =>
        obtain ⟨gk, gv⟩ := g
        simp only [List.cons.sizeOf_spec, Prod.mk.sizeOf_spec] at hsz
        have hmv : sizeOf v < n := by omega
        have hmg : sizeOf gv + sizeOf gs < n := by omega
        have hV := (ih _ hmv).1 v lvl (le_refl _)
        have hF := (ih _ hmg).2.2 gk gv gs lvl (le_refl _)
        rw [fieldsDepth, fieldsTail]
        simp only [List.length_cons, List.length_append, indentChars,
          List.length_replicate]
        omega

/-- Top-level round trip: the text `json.dump(..., indent=2,
ensure_ascii=False)` writes for a value is read back by `json.load`
as exactly that value. -/
theorem parseJson_render (j : Json) : parseJson (render j) = some j := by
  have hlen : jsonDepth j ≤ (renderChars 0 j).length :=
    (depth_le_render (sizeOf j)).1 j 0 (le_refl _)
  have H := (parse_render_aux ((renderChars 0 j).length + 1)).1 j 0 [] []
    wsList_nil (by omega) rfl
  simp only [List.nil_append, List.append_nil] at H
  show (match parseValue ((renderChars 0 j).length + 1) (renderChars 0 j) with
    | some (j2, rest) => if (skipWs rest).isEmpty then some j2 else none
    | none => none) = some j
  rw [H]
  rfl

/-!
## The snapshot written by `export_stats` (`data_exporter.py` lines 18-25)
-/

/-- Injective stand-in for `date.strftime("%Y-%m-%d")`: distinct days
render to distinct key strings. -/
def dateStr (d : Int) : String :=
  String.mk (intChars d)

/-- `str(deck_id)` / `str(row["did"])`. -/
def intStr (n : Int) : String :=
  String.mk (intChars n)

/-- The JSON object for the `cards` entry (the dict built by
`AnkiReader.get_card_counts`). -/
def encodeCards (c : CardCounts) : Json :=
  Json.jobj [("total", Json.jint c.total),
             ("new", Json.jint c.new),
             ("learning", Json.jint c.learning),
             ("mature", Json.jint c.mature),
             ("suspended", Json.jint c.suspended)]

/-- One entry of the `decks` dict built by `AnkiReader.get_decks`:
keyed by `str(id)`, carrying `name`, `id` and the per-deck counts
(the embedding records a deck absent from the `cards` table with
explicit zero counts, which readers of the absent keys take as 0). -/
def encodeDeckEntry (names : Int → String) (p : Int × DeckCounts) : String × Json :=
  (intStr p.1,
   Json.jobj [("name", Json.jstr (names p.1)),
              ("id", Json.jstr (intStr p.1)),
              ("total", Json.jint p.2.total),
              ("new", Json.jint p.2.new),
              ("mature", Json.jint p.2.mature)])

/-- One bucket of `heatmap_data` (`stats_calculator.py` lines 130-135). -/
def encodeBucket (b : Bucket) : Json :=
  Json.jobj [("date", Json.jstr (dateStr b.date)),
             ("count", Json.jint b.count),
             ("weekday", Json.jint b.wday),
             ("week", Json.jint b.week)]

/-- One ranked-deck entry of `deck_reviews`. -/
def encodeRank (r : RankEntry) : Json :=
  Json.jobj [("name", Json.jstr r.name), ("reviews", Json.jint r.reviews)]

/-- The JSON value `json.dump` receives for one stats entry. -/
def encodeVal (names : Int → String) : StatsVal → Json
  | StatsVal.cardsVal c => encodeCards c
  | StatsVal.decksVal d => Json.jobj (d.map (encodeDeckEntry names))
  | StatsVal.dailyReviewsVal dr =>
      Json.jobj (dr.map (fun p => (dateStr p.1, Json.jint p.2)))
  | StatsVal.deckReviewsVal r => Json.jarr (r.map encodeRank)
  | StatsVal.natVal n => Json.jint n
  | StatsVal.heatmapVal h => Json.jarr (h.map encodeBucket)
  | StatsVal.strVal s => Json.jstr s

/-- The whole stats dict as the JSON value written to `stats.json`;
`names` supplies the deck display names read from the `decks` table. -/
def encodeStats (names : Int → String) (stats : List (String × StatsVal)) : Json :=
  Json.jobj (stats.map (fun p => (p.1, encodeVal names p.2)))

/-- Reading one top-level key of the re-loaded snapshot. -/
def jGetField (j : Json) (k : String) : Option Json :=
  match j with
  | Json.jobj fs => fs.lookup k
  | _ => none

/-- Inverse of `intStr` on the deck-id keys. -/
def strToInt (s : String) : Option Int :=
  match s.data with
  | [] => none
  | c :: cs =>
      if c = '-' then
        if cs.isEmpty || !cs.all isDigitChar then none
        else some (-(digitsVal cs : Int))
      else
        if (c :: cs).all isDigitChar then some ((digitsVal (c :: cs) : Int))
        else none

/-- The card counts a reader of the re-loaded snapshot recovers. -/
def decodeCards (j : Json) : Option CardCounts :=
  match jGetField j "cards" with
  | some (Json.jobj fs) =>
      match fs.lookup "total", fs.lookup "new", fs.lookup "learning",
          fs.lookup "mature", fs.lookup "suspended" with
      | some (Json.jint t), some (Json.jint n), some (Json.jint l),
          some (Json.jint m), some (Json.jint s) =>
          some ⟨t.toNat, n.toNat, l.toNat, m.toNat, s.toNat⟩
      | _, _, _, _, _ => none
  | _ => none

/-- One deck recovered from the re-loaded snapshot: id key, name and
counts. -/
def decodeDeckEntry (p : String × Json) : Option (Int × String × DeckCounts) :=
  match strToInt p.1, p.2 with
  | some i, Json.jobj fs =>
      match fs.lookup "name", fs.lookup "total", fs.lookup "new",
          fs.lookup "mature" with
      | some (Json.jstr nm), some (Json.jint t), some (Json.jint n),
          some (Json.jint m) => some (i, nm, ⟨t.toNat, n.toNat, m.toNat⟩)
      | _, _, _, _ => none
  | _, _ => none

/-- All entries of the re-loaded `decks` dict, in order. -/
def decodeDeckEntries : List (String × Json) → Option (List (Int × String × DeckCounts))
  | [] => some []
  | p :: ps =>
      match decodeDeckEntry p, decodeDeckEntries ps with
      | some x, some xs => some (x :: xs)
      | _, _ => none

/-- All decks recovered from the re-loaded snapshot. -/
def decodeDecks (j : Json) : Option (List (Int × String × DeckCounts)) :=
  match jGetField j "decks" with
  | some (Json.jobj fs) => decodeDeckEntries fs
  | _ => none

/-- The streak recovered from the re-loaded snapshot. -/
def decodeStreak (j : Json) : Option Nat :=
  match jGetField j "streak" with
  | some (Json.jint n) => some n.toNat
  | _ => none

theorem strToInt_intStr (n : Int) : strToInt (intStr n) = some n := by
  rw [intStr, strToInt]
  by_cases hn : n < 0
  · have hic : intChars n = '-' :: natDigits n.natAbs := by
      rw [intChars, if_pos hn]
    rw [hic]
    show (if ('-' : Char) = '-' then
        if (natDigits n.natAbs).isEmpty || !(natDigits n.natAbs).all isDigitChar
        then none else some (-(digitsVal (natDigits n.natAbs) : Int))
      else _) = some n
    rw [if_pos rfl]
    have hne : (natDigits n.natAbs).isEmpty = false := by
      cases hnd : natDigits n.natAbs with
      | nil => exact absurd hnd (natDigits_ne_nil _)
      | cons d ds => rfl
    have hall : (natDigits n.natAbs).all isDigitChar = true := by
      rw [List.all_eq_true]
      exact natDigits_all_digits _
    rw [hne, hall, if_neg (by decide : ¬ (((false : Bool) || !(true : Bool)) = true)),
      digitsVal_natDigits]
    congr 1
    omega
  · have hic : intChars n = natDigits n.natAbs := by
      rw [intChars, if_neg hn]
    obtain ⟨d, ds, hdig⟩ : ∃ d ds, natDigits n.natAbs = d :: ds := by
      cases hnd : natDigits n.natAbs with
      | nil => exact absurd hnd (natDigits_ne_nil _)
      | cons d ds => exact ⟨d, ds, rfl⟩
    have hd0 : isDigitChar d = true :=
      natDigits_all_digits _ d (by rw [hdig]; simp)
    rw [hic, hdig]
    show (if d = '-' then _
      else if (d :: ds).all isDigitChar then some ((digitsVal (d :: ds) : Int))
        else none) = some n
    have hdm : ¬ d = '-' := by
      intro h
      subst h
      exact absurd hd0 (by decide)
    rw [if_neg hdm]
    have hall : (d :: ds).all isDigitChar = true := by
      rw [List.all_eq_true, ← hdig]
      exact natDigits_all_digits _
    rw [if_pos hall, ← hdig, digitsVal_natDigits]
    congr 1
    omega

theorem decodeDeckEntry_encode (names : Int → String) (p : Int × DeckCounts) :
    decodeDeckEntry (encodeDeckEntry names p) = some (p.1, names p.1, p.2) := by
  simp only [decodeDeckEntry, encodeDeckEntry, strToInt_intStr]
  rfl

theorem decodeDecks_encode (names : Int → String) (decks : List (Int × DeckCounts)) :
    decodeDeckEntries (decks.map (encodeDeckEntry names))
      = some (decks.map (fun p => (p.1, names p.1, p.2))) := by
  induction decks with
  | nil => rfl
  | cons p ps ih =>
    rw [List.map_cons, List.map_cons, decodeDeckEntries, decodeDeckEntry_encode, ih]

/-!
## Counting helper: per-deck counts partition a global count
-/

/-- Cards counted per deck id, summed over any set of deck ids, never
exceed the global count with the same card predicate: each card lies
in at most one deck. -/
theorem sum_deck_countP_le (cards : List Card) (p : Card → Bool) (ids : List Int) :
    ∑ d ∈ ids.toFinset, cards.countP (fun c => c.did == d && p c) ≤ cards.countP p := by
  induction cards with
  | nil => simp
  | cons c cs ih =>
    have hstep : ∀ d : Int,
        (c :: cs).countP (fun x => x.did == d && p x)
          = cs.countP (fun x => x.did == d && p x)
            + (if c.did == d && p c then 1 else 0) := by
      intro d; rw [List.countP_cons]
    calc ∑ d ∈ ids.toFinset, (c :: cs).countP (fun x => x.did == d && p x)
        = ∑ d ∈ ids.toFinset, (cs.countP (fun x => x.did == d && p x)
            + (if c.did == d && p c then 1 else 0)) :=
          Finset.sum_congr rfl (fun d _ => hstep d)
      _ = (∑ d ∈ ids.toFinset, cs.countP (fun x => x.did == d && p x))
            + ∑ d ∈ ids.toFinset, (if c.did == d && p c then 1 else 0) :=
          Finset.sum_add_distrib
      _ ≤ cs.countP p + (if p c then 1 else 0) := by
          apply Nat.add_le_add ih
          by_cases hp : p c = true
          · simp only [hp, Bool.and_true, if_true]
            have hsum : ∑ d ∈ ids.toFinset, (if c.did = d then 1 else 0)
                = if c.did ∈ ids.toFinset then 1 else 0 :=
              Finset.sum_ite_eq ids.toFinset c.did (fun _ => 1)
            simp only [beq_iff_eq]
            rw [hsum]
            split_ifs <;> omega
          · have hp' : p c = false := eq_false_of_ne_true hp
            simp [hp']
      _ = (c :: cs).countP p := (List.countP_cons _ _ _).symm

/-!
## The streak loop: auxiliary lemmas
-/

/-- A run of `L` consecutive present days ending at day `d`. -/
def RunEnd (dr : List (Int × Nat)) (d : Int) (L : Nat) : Prop :=
  ∀ i : Nat, i < L → member dr (d - i) = true

theorem member_iff_mem_keys (dr : List (Int × Nat)) (d : Int) :
    member dr d = true ↔ d ∈ dr.map Prod.fst := by
  induction dr with
  | nil => simp [member, List.lookup]
  | cons p tl ih =>
    obtain ⟨k, v⟩ := p
    by_cases hk : k = d
    · simp [member, List.lookup, hk]
    · have hdk : (d == k) = false := beq_false_of_ne (fun h => hk h.symm)
      simp only [member, List.lookup, hdk, List.map_cons, List.mem_cons]
      rw [member] at ih
      rw [ih]
      constructor
      · exact Or.inr
      · rintro (h | h)
        · exact absurd h.symm hk
        · exact h

theorem countRun_le (dr : List (Int × Nat)) :
    ∀ (fuel : Nat) (d : Int), countRun dr fuel d ≤ fuel := by
  intro fuel
  induction fuel with
  | zero => intro d; simp [countRun]
  | succ n ih =>
    intro d
    rw [countRun]
    split_ifs
    · exact Nat.succ_le_succ (ih (d - 1))
    · exact Nat.zero_le _

theorem countRun_run (dr : List (Int × Nat)) :
    ∀ (fuel : Nat) (d : Int), RunEnd dr d (countRun dr fuel d) := by
  intro fuel
  induction fuel with
  | zero => intro d i hi; simp [countRun] at hi
  | succ n ih =>
    intro d i hi
    rw [countRun] at hi
    by_cases hm : member dr d = true
    · rw [if_pos hm] at hi
      match i with
      | 0 => simpa using hm
      | j + 1 =>
        have hj : j < countRun dr n (d - 1) := by omega
        have := ih (d - 1) j hj
        have harg : d - 1 - (j : Int) = d - ((j : Nat) + 1 : Nat) := by push_cast; ring
        rwa [harg] at this
    · rw [if_neg hm] at hi
      omega

theorem countRun_stop (dr : List (Int × Nat)) :
    ∀ (fuel : Nat) (d : Int), countRun dr fuel d < fuel →
      member dr (d - countRun dr fuel d) = false := by
  intro fuel
  induction fuel with
  | zero => intro d h; omega
  | succ n ih =>
    intro d h
    by_cases hm : member dr d = true
    · rw [countRun, if_pos hm] at h ⊢
      have hrec : countRun dr n (d - 1) < n := by omega
      have := ih (d - 1) hrec
      have harg : d - 1 - (countRun dr n (d - 1) : Int)
          = d - ((countRun dr n (d - 1) : Nat) + 1 : Nat) := by push_cast; ring
      rwa [harg] at this
    · rw [countRun, if_neg hm]
      simpa using eq_false_of_ne_true hm

theorem countRun_ge (dr : List (Int × Nat)) :
    ∀ (L fuel : Nat) (d : Int), L ≤ fuel → RunEnd dr d L →
      L ≤ countRun dr fuel d := by
  intro L
  induction L with
  | zero => intro fuel d _ _; exact Nat.zero_le _
  | succ m ih =>
    intro fuel d hfuel hrun
    match fuel with
    | 0 => omega
    | f + 1 =>
      have hm : member dr d = true := by simpa using hrun 0 (by omega)
      rw [countRun, if_pos hm]
      have hrun' : RunEnd dr (d - 1) m := by
        intro i hi
        have := hrun (i + 1) (by omega)
        have harg : d - ((i : Nat) + 1 : Nat) = d - 1 - (i : Int) := by push_cast; ring
        rwa [harg] at this
      have := ih f (d - 1) (by omega) hrun'
      omega

/-- A run of consecutive present days can never be longer than the
number of keys of the mapping. -/
theorem run_le_length (dr : List (Int × Nat)) (d : Int) (L : Nat)
    (h : RunEnd dr d L) : L ≤ dr.length := by
  have hinj : Function.Injective fun i : Nat => d - (i : Int) := by
    intro a b hab
    simp only at hab
    omega
  have hsub : (Finset.range L).image (fun i : Nat => d - (i : Int))
      ⊆ (dr.map Prod.fst).toFinset := by
    intro x hx
    simp only [Finset.mem_image, Finset.mem_range] at hx
    obtain ⟨i, hi, rfl⟩ := hx
    rw [List.mem_toFinset]
    exact (member_iff_mem_keys dr _).mp (h i hi)
  have hcard := Finset.card_le_card hsub
  rw [Finset.card_image_of_injective _ hinj, Finset.card_range] at hcard
  calc L ≤ (dr.map Prod.fst).toFinset.card := hcard
    _ ≤ (dr.map Prod.fst).length := (dr.map Prod.fst).toFinset_card_le
    _ = dr.length := List.length_map _ _

/-!
## Claim theorems: C1, C2, C3, C9, C10
-/

/-- Claim C1: for a daily-review mapping, `_calculate_streak` returns
the length of the longest run of consecutive calendar days present in
the mapping that ends at today or at yesterday (`IsGreatest` states
both that the returned value is such a run length and that no such run
is longer).  In particular, when neither today nor yesterday is
present the only such run length is 0 and the function returns 0; the
final disjunct restates that zero case explicitly. -/
theorem calculate_streak_is_longest_run (dr : List (Int × Nat)) (today : Int) :
    IsGreatest {L : Nat | RunEnd dr today L ∨ RunEnd dr (today - 1) L}
      (calculate_streak dr today) ∧
    (calculate_streak dr today = 0 ∨
      (member dr today || member dr (today - 1)) = true) := by
  constructor
  · constructor
    · -- the returned value is itself a run length ending at one anchor
      by_cases ht : member dr today = true
      · rw [calculate_streak, if_pos ht]
        exact Or.inl (countRun_run dr (dr.length + 1) today)
      · by_cases hy : member dr (today - 1) = true
        · rw [calculate_streak, if_neg ht, if_pos hy]
          exact Or.inr (countRun_run dr (dr.length + 1) (today - 1))
        · rw [calculate_streak, if_neg ht, if_neg hy]
          exact Or.inl (fun i hi => absurd hi (by omega))
    · -- no run ending at today or yesterday is longer
      rintro L (hL | hL)
      · by_cases ht : member dr today = true
        · rw [calculate_streak, if_pos ht]
          exact countRun_ge dr L (dr.length + 1) today
            (Nat.le_succ_of_le (run_le_length dr today L hL)) hL
        · match L, hL with
          | 0, _ => exact Nat.zero_le _
          | m + 1, hL => exact absurd (by simpa using hL 0 (by omega)) ht
      · by_cases ht : member dr today = true
        · rw [calculate_streak, if_pos ht]
          have hrun : RunEnd dr today (L + 1) := by
            intro i hi
            match i with
            | 0 => simpa using ht
            | j + 1 =>
              have := hL j (by omega)
              have harg : today - 1 - (j : Int) = today - ((j : Nat) + 1 : Nat) := by
                push_cast; ring
              rwa [harg] at this
          have := countRun_ge dr (L + 1) (dr.length + 1) today
            (Nat.le_succ_of_le (run_le_length dr today (L + 1) hrun)) hrun
          omega
        · by_cases hy : member dr (today - 1) = true
          · rw [calculate_streak, if_neg ht, if_pos hy]
            exact countRun_ge dr L (dr.length + 1) (today - 1)
              (Nat.le_succ_of_le (run_le_length dr (today - 1) L hL)) hL
          · match L, hL with
            | 0, _ => exact Nat.zero_le _
            | m + 1, hL => exact absurd (by simpa using hL 0 (by omega)) hy
  · by_cases ht : member dr today = true
    · right; simp [ht]
    · by_cases hy : member dr (today - 1) = true
      · right; simp [hy]
      · left; rw [calculate_streak, if_neg ht, if_neg hy]

/-- Witness for C1 at a concrete mapping: reviews on days 8 and 9,
queried with today = 9, give a streak of 2 and the greatest run. -/
theorem calculate_streak_is_longest_run_witness :
    IsGreatest {L : Nat | RunEnd [(9, 2), (8, 1)] 9 L ∨ RunEnd [(9, 2), (8, 1)] (9 - 1) L}
      (calculate_streak [(9, 2), (8, 1)] 9) ∧
    (calculate_streak [(9, 2), (8, 1)] 9 = 0 ∨
      (member [(9, 2), (8, 1)] 9 || member [(9, 2), (8, 1)] (9 - 1)) = true) :=
  calculate_streak_is_longest_run [(9, 2), (8, 1)] 9

/-!
## Claim theorems: C2, C3, C9, C10
-/

/-- Claim C2: the heatmap bucket counts, summed over all buckets
returned by `_prepare_heatmap_data`, equal the sum of the daily-review
counts over the covered date range (from the computed start date
through today), with dates absent from the mapping contributing 0. -/
theorem heatmap_counts_sum (dr : List (Int × Nat)) (today : Int) :
    ((prepare_heatmap_data dr today).map Bucket.count).sum
      = ∑ d ∈ Finset.Icc (heatmapStart today) today, lookupD dr d :=
  heatmapLoop_sum dr (heatmapStart today) today _ (heatmapStart today) rfl

/-- Claim C3: `_calculate_weekly_reviews` returns exactly the sum of
the counts for the 7 most recent calendar days (today and the six days
before it), treating dates missing from the mapping as 0. -/
theorem weekly_reviews_eq_sum (dr : List (Int × Nat)) (today : Int) :
    calculate_weekly_reviews dr today
      = ∑ i ∈ Finset.range 7, lookupD dr (today - i) := by
  simp [calculate_weekly_reviews, Finset.sum_range_succ, List.range_succ]

/-- Claim C9: `get_color_level` always returns a level between 0 and 4,
returns 0 exactly when the count is 0, and for a fixed `max_count` is
monotone non-decreasing in the count. -/
theorem get_color_level_invariants (count count' max_count : Nat)
    (h : count ≤ count') :
    get_color_level count max_count ≤ 4 ∧
    (get_color_level count max_count = 0 ↔ count = 0) ∧
    get_color_level count max_count ≤ get_color_level count' max_count := by
  refine ⟨?_, ?_, ?_⟩
  · unfold get_color_level
    split_ifs <;> omega
  · constructor
    · intro h0
      unfold get_color_level at h0
      split_ifs at h0
      omega
    · intro h0
      simp [get_color_level, h0]
  · by_cases hc : count = 0
    · simp [get_color_level, hc]
    · have hc' : count' ≠ 0 := by omega
      by_cases hm : max_count = 0
      · simp [get_color_level, hc, hc', hm]
      · have hr : (count : ℚ) / (max_count : ℚ) ≤ (count' : ℚ) / (max_count : ℚ) := by
          gcongr
        unfold get_color_level
        split_ifs <;> first | omega | linarith

/-- Witness for C9 at a concrete input. -/
theorem get_color_level_invariants_witness :
    get_color_level 2 10 ≤ 4 ∧
    (get_color_level 2 10 = 0 ↔ 2 = 0) ∧
    get_color_level 2 10 ≤ get_color_level 7 10 :=
  get_color_level_invariants 2 7 10 (by decide)

/-- The trailing-window operator never returns more than `n`
entries. -/
theorem lastN_length_le (n : Nat) (l : List α) : (lastN n l).length ≤ n := by
  simp only [lastN, List.length_drop]
  omega

/-- Taking a positive trailing window of a list ending in `a` keeps
`a` as the last element. -/
theorem lastN_concat_getLast (n : Nat) (hn : 0 < n) (l : List α) (a : α) :
    (lastN n (l ++ [a])).getLast? = some a := by
  rw [lastN]
  have hlen : (l ++ [a]).length = l.length + 1 := by simp
  rw [hlen]
  have hk : l.length + 1 - n ≤ l.length := by omega
  rw [List.drop_append_of_le_length hk, List.getLast?_concat]

/-- Claim C7: `export_history` replaces the last entry on a same-day
rerun and appends otherwise, truncates to the 365 most recent
entries, never returns more than 365 entries, always ends with the
new snapshot, and adds at most one entry for the snapshot's calendar
day (and none for any other day). -/
theorem export_history_spec (history : List HistoryEntry) (snapshot : HistoryEntry) :
    export_history history snapshot
      = lastN 365
          (if history.getLast?.map HistoryEntry.date = some snapshot.date
           then history.dropLast ++ [snapshot]
           else history ++ [snapshot]) ∧
    (export_history history snapshot).length ≤ 365 ∧
    (export_history history snapshot).getLast? = some snapshot ∧
    ∀ d : Int,
      (export_history history snapshot).countP (fun e => e.date == d)
        ≤ history.countP (fun e => e.date == d)
          + (if snapshot.date = d then 1 else 0) := by
  have key : ∀ d : Int, ∀ F : List HistoryEntry, F.Sublist history →
      (lastN 365 (F ++ [snapshot])).countP (fun e => e.date == d)
        ≤ history.countP (fun e => e.date == d)
          + (if snapshot.date = d then 1 else 0) := by
    intro d F hF
    have hsingle : [snapshot].countP (fun e => e.date == d)
        = if snapshot.date = d then 1 else 0 := by
      by_cases hd : snapshot.date = d <;> simp [hd]
    calc (lastN 365 (F ++ [snapshot])).countP (fun e => e.date == d)
        ≤ (F ++ [snapshot]).countP (fun e => e.date == d) :=
          List.Sublist.countP_le _ (List.drop_sublist _ _)
      _ = F.countP (fun e => e.date == d)
            + [snapshot].countP (fun e => e.date == d) :=
          List.countP_append _ _ _
      _ ≤ history.countP (fun e => e.date == d)
            + (if snapshot.date = d then 1 else 0) := by
          rw [hsingle]
          exact Nat.add_le_add_right (hF.countP_le _) _
  refine ⟨?_, ?_, ?_, ?_⟩
  · cases hl : history.getLast? with
    | none => simp [export_history, hl]
    | some e =>
      by_cases he : e.date = snapshot.date <;>
        simp [export_history, hl, he]
  · apply lastN_length_le
  · cases hl : history.getLast? with
    | none =>
      simp only [export_history, hl]
      exact lastN_concat_getLast 365 (by omega) history snapshot
    | some e =>
      simp only [export_history, hl]
      by_cases he : e.date = snapshot.date
      · rw [if_pos (by simpa using he)]
        exact lastN_concat_getLast 365 (by omega) history.dropLast snapshot
      · rw [if_neg (by simpa using he)]
        exact lastN_concat_getLast 365 (by omega) history snapshot
  · intro d
    cases hl : history.getLast? with
    | none =>
      simp only [export_history, hl]
      exact key d history (List.Sublist.refl _)
    | some e =>
      simp only [export_history, hl]
      by_cases he : e.date = snapshot.date
      · rw [if_pos (by simpa using he)]
        exact key d history.dropLast (List.dropLast_sublist _)
      · rw [if_neg (by simpa using he)]
        exact key d history (List.Sublist.refl _)

/-- Claim C5: the per-deck total, mature and new counts returned by
`get_decks`, each summed across all returned decks, do not exceed the
corresponding global counts returned by `get_card_counts` over the
same cards table.  The deck ids are the keys of the `decks` dict and
hence distinct. -/
theorem decks_counts_within_card_counts (deckIds : List Int) (cards : List Card)
    (hnd : deckIds.Nodup) :
    ((get_decks deckIds cards).map (fun e => e.2.total)).sum
        ≤ (get_card_counts cards).total ∧
    ((get_decks deckIds cards).map (fun e => e.2.mature)).sum
        ≤ (get_card_counts cards).mature ∧
    ((get_decks deckIds cards).map (fun e => e.2.new)).sum
        ≤ (get_card_counts cards).new := by
  have hconv : ∀ f : DeckCounts → Nat,
      ((get_decks deckIds cards).map (fun e => f e.2)).sum
        = ∑ d ∈ deckIds.toFinset, f (deck_card_counts cards d) := by
    intro f
    rw [get_decks, List.map_map]
    exact (List.sum_toFinset _ hnd).symm
  refine ⟨?_, ?_, ?_⟩
  · rw [hconv (fun dc => dc.total)]
    have := sum_deck_countP_le cards (fun _ => true) deckIds
    simp only [Bool.and_true, List.countP_true] at this
    simpa [deck_card_counts, get_card_counts] using this
  · rw [hconv (fun dc => dc.mature)]
    exact sum_deck_countP_le cards (fun c => c.ctype == 2) deckIds
  · rw [hconv (fun dc => dc.new)]
    exact sum_deck_countP_le cards (fun c => c.ctype == 0) deckIds

/-- Witness for C5 at a concrete database: two known decks, three
cards, one of them owned by an unknown deck id. -/
theorem decks_counts_within_card_counts_witness :
    ((get_decks [1, 2] [⟨1, 0, 0⟩, ⟨1, 2, 0⟩, ⟨3, 2, -1⟩]).map (fun e => e.2.total)).sum
        ≤ (get_card_counts [⟨1, 0, 0⟩, ⟨1, 2, 0⟩, ⟨3, 2, -1⟩]).total ∧
    ((get_decks [1, 2] [⟨1, 0, 0⟩, ⟨1, 2, 0⟩, ⟨3, 2, -1⟩]).map (fun e => e.2.mature)).sum
        ≤ (get_card_counts [⟨1, 0, 0⟩, ⟨1, 2, 0⟩, ⟨3, 2, -1⟩]).mature ∧
    ((get_decks [1, 2] [⟨1, 0, 0⟩, ⟨1, 2, 0⟩, ⟨3, 2, -1⟩]).map (fun e => e.2.new)).sum
        ≤ (get_card_counts [⟨1, 0, 0⟩, ⟨1, 2, 0⟩, ⟨3, 2, -1⟩]).new :=
  decks_counts_within_card_counts [1, 2] [⟨1, 0, 0⟩, ⟨1, 2, 0⟩, ⟨3, 2, -1⟩] (by decide)

/-- Counterexample to claim C4 as stated: on an empty deck mapping
the archived `DeckSvgGenerator.generate_svg` returns the empty
string, which is not an SVG document (it does not even start with an
`svg` tag), hence not a designated "no data" placeholder SVG. -/
theorem deck_svg_empty_returns_empty_string :
    DeckSvgGenerator.generate_svg [] false none = "" ∧
    ("<svg".isPrefixOf "") = false := by
  constructor
  · simp [DeckSvgGenerator.generate_svg]
  · rfl

/-- Claim C4 (amended): on an empty dataset the two active bar-chart
generators return their designated "No data" placeholder SVG without
error, while the archived deck-progress generator returns the empty
string (also without error). -/
theorem bar_generators_empty_dataset (dark : Bool) :
    DeckCardsGenerator.generate_svg [] dark
        = Except.ok (DeckCardsGenerator.generate_empty_svg dark) ∧
    DeckReviewsGenerator.generate_svg [] dark 7
        = DeckReviewsGenerator.generate_empty_svg dark ∧
    DeckSvgGenerator.generate_svg [] dark none = "" := by
  refine ⟨rfl, rfl, ?_⟩
  simp [DeckSvgGenerator.generate_svg]

/-- Claim C8 (documents the code bug in `sync.py`): for every
statistics dict produced by `get_all_stats` — that is, for every run
whose export step succeeds — and for every git environment, flag
setting, and reader data, `sync_stats` raises `KeyError:
daily_time` at step 5 (the key is never set by `get_all_stats`), so
it never reaches the commit step (no git command is run) and never
returns `True`, contradicting the claim that version-control
failures are the only non-fatal late-stage condition. -/
theorem sync_stats_key_error_daily_time
    (card_counts : CardCounts) (decks : List (Int × DeckCounts))
    (daily_reviews : List (Int × Nat)) (deck_reviews_ranked : List RankEntry)
    (weekly_time : Nat) (today : Int) (generated_at : String)
    (git : GitEnv) (commit push : Bool) :
    (sync_stats (get_all_stats card_counts decks daily_reviews deck_reviews_ranked
        weekly_time today generated_at) git commit push).2
      = Except.error "KeyError: daily_time" ∧
    (sync_stats (get_all_stats card_counts decks daily_reviews deck_reviews_ranked
        weekly_time today generated_at) git commit push).1.countP
        (fun e => match e with | Event.gitRun _ => true | _ => false) = 0 :=
  ⟨rfl, rfl⟩

/-- Claim C10: the mastery-percentage computation of
`generate_badges` never takes the division-by-zero branch (the result
is always `some`), and when `total = suspended` (no active cards) the
mastery percentage is 0. -/
theorem mastery_pct_safe (total suspended mature : Int) :
    (mastery_pct total suspended mature).isSome = true ∧
    mastery_pct suspended suspended mature = some 0 := by
  constructor
  · unfold mastery_pct
    split_ifs with h1
    · have hne : total - suspended ≠ 0 := by omega
      simp [divSome, hne]
    · rfl
  · simp [mastery_pct]

/-- Claim C6: writing the statistics snapshot with `export_stats`
(`json.dump(stats, f, indent=2, ensure_ascii=False)`) and re-reading
the file with `json.load` reproduces the snapshot exactly; in
particular the recovered card counts, per-deck entries (id, name and
counts) and streak value equal the originals, for every reader
snapshot and clock. -/
theorem export_stats_round_trip (cc : CardCounts) (decks : List (Int × DeckCounts))
    (dr : List (Int × Nat)) (rk : List RankEntry) (wt : Nat) (today : Int)
    (gen : String) (names : Int → String) :
    parseJson (render (encodeStats names (get_all_stats cc decks dr rk wt today gen)))
      = some (encodeStats names (get_all_stats cc decks dr rk wt today gen)) ∧
    decodeCards (encodeStats names (get_all_stats cc decks dr rk wt today gen))
      = some cc ∧
    decodeDecks (encodeStats names (get_all_stats cc decks dr rk wt today gen))
      = some (decks.map (fun p => (p.1, names p.1, p.2))) ∧
    decodeStreak (encodeStats names (get_all_stats cc decks dr rk wt today gen))
      = some (calculate_streak dr today) := by
  refine ⟨parseJson_render _, rfl, ?_, rfl⟩
  show decodeDeckEntries (decks.map (encodeDeckEntry names))
    = some (decks.map (fun p => (p.1, names p.1, p.2)))
  exact decodeDecks_encode names decks

end Ankiboard
